import Mathlib

set_option maxHeartbeats 1000000
set_option maxRecDepth 4000

/-!
Verification of the PuTTY-for-Raycast session record mapper.

JavaScript strings are modelled as `List Char` (Unicode scalar values); the
registry and the external `reg.exe` tool are modelled as explicit state with
a rendering of `reg query` output that the source code's parsing regexes run
against.
-/

abbrev JStr := List Char

/-- Code points of the JavaScript whitespace set (WhiteSpace ∪ LineTerminator),
the set used both by `String.prototype.trim` and by the regex class `\s`. -/
def jsWhitespaceCodes : List Nat :=
  [0x9, 0xA, 0xB, 0xC, 0xD, 0x20, 0xA0, 0x1680, 0x2000, 0x2001, 0x2002, 0x2003,
   0x2004, 0x2005, 0x2006, 0x2007, 0x2008, 0x2009, 0x200A, 0x2028, 0x2029,
   0x202F, 0x205F, 0x3000, 0xFEFF]

def jsWhitespace (c : Char) : Bool := jsWhitespaceCodes.contains c.toNat

/-- `String.prototype.trim`. -/
def jsTrim (s : JStr) : JStr :=
  ((s.dropWhile jsWhitespace).reverse.dropWhile jsWhitespace).reverse

/-- The characters `encodeURIComponent` leaves unescaped:
`A-Z a-z 0-9 - _ . ! ~ * ' ( )`. -/
def unreservedChar (c : Char) : Bool :=
  c.isAlphanum || c = '-' || c = '_' || c = '.' || c = '!' || c = '~' ||
    c = '*' || c = Char.ofNat 39 || c = '(' || c = ')'

def hexUpperDigit (n : Nat) : Char :=
  if n < 10 then Char.ofNat (48 + n) else Char.ofNat (55 + n)

def hexLowerDigit (n : Nat) : Char :=
  if n < 10 then Char.ofNat (48 + n) else Char.ofNat (87 + n)

/-- Value of one hexadecimal digit character (either case), `none` otherwise. -/
def hexDigitVal (c : Char) : Option Nat :=
  if 48 ≤ c.toNat ∧ c.toNat ≤ 57 then some (c.toNat - 48)
  else if 65 ≤ c.toNat ∧ c.toNat ≤ 70 then some (c.toNat - 55)
  else if 97 ≤ c.toNat ∧ c.toNat ≤ 102 then some (c.toNat - 87)
  else none

def hexPairVal (a b : Char) : Option Nat :=
  match hexDigitVal a, hexDigitVal b with
  | some x, some y => some (16 * x + y)
  | _, _ => none

/-- UTF-8 bytes of a code point. -/
def utf8Bytes (n : Nat) : List Nat :=
  if n < 0x80 then [n]
  else if n < 0x800 then [0xC0 + n / 64, 0x80 + n % 64]
  else if n < 0x10000 then [0xE0 + n / 4096, 0x80 + n / 64 % 64, 0x80 + n % 64]
  else [0xF0 + n / 262144, 0x80 + n / 4096 % 64, 0x80 + n / 64 % 64, 0x80 + n % 64]

def pctEncodeByte (b : Nat) : List Char :=
  ['%', hexUpperDigit (b / 16), hexUpperDigit (b % 16)]

/-- `encodeURIComponent` on a single code point: unreserved characters pass
through, every other code point is UTF-8 encoded and percent-escaped. -/
def encodeURIComponentChar (c : Char) : List Char :=
  if unreservedChar c then [c] else (utf8Bytes c.toNat).flatMap pctEncodeByte

/-- The ECMAScript builtin `encodeURIComponent`. -/
def encodeURIComponent (s : JStr) : JStr := s.flatMap encodeURIComponentChar

/-- `encodeSessionKey` from `add-connection.tsx` / `search-connections.tsx`:
`encodeURIComponent(raw)`. -/
def encodeSessionKey (raw : JStr) : JStr := encodeURIComponent raw

/-- Read one `%XY` triple from the front of the input; yields the byte value
and the remaining characters. -/
def takePctByte : JStr → Option (Nat × JStr)
  | pc :: a :: b :: r => if pc = '%' then (hexPairVal a b).map (·, r) else none
  | _ => none

/-- Read one `%XY` triple that must be a UTF-8 continuation byte. -/
def takeContByte (s : JStr) : Option (Nat × JStr) :=
  match takePctByte s with
  | some (b, r) => if 0x80 ≤ b ∧ b < 0xC0 then some (b, r) else none
  | none => none

/-- Decode one percent-escape sequence (one UTF-8 encoded code point) from the
front of the input, per the ECMAScript `Decode` abstract operation: overlong
encodings, surrogates and out-of-range code points are rejected. -/
def decodeOneEscape (s : JStr) : Option (Char × JStr) :=
  match takePctByte s with
  | none => none
  | some (B, r1) =>
    if B < 0x80 then some (Char.ofNat B, r1)
    else if B < 0xC0 then none
    else if B < 0xE0 then
      match takeContByte r1 with
      | some (B2, r2) =>
        if 0x80 ≤ (B - 0xC0) * 64 + (B2 - 0x80) then
          some (Char.ofNat ((B - 0xC0) * 64 + (B2 - 0x80)), r2)
        else none
      | none => none
    else if B < 0xF0 then
      match takeContByte r1 with
      | some (B2, r2) =>
        match takeContByte r2 with
        | some (B3, r3) =>
          if 0x800 ≤ (B - 0xE0) * 4096 + (B2 - 0x80) * 64 + (B3 - 0x80) ∧
              ¬(0xD800 ≤ (B - 0xE0) * 4096 + (B2 - 0x80) * 64 + (B3 - 0x80) ∧
                (B - 0xE0) * 4096 + (B2 - 0x80) * 64 + (B3 - 0x80) ≤ 0xDFFF) then
            some (Char.ofNat ((B - 0xE0) * 4096 + (B2 - 0x80) * 64 + (B3 - 0x80)), r3)
          else none
        | none => none
      | none => none
    else if B < 0xF8 then
      match takeContByte r1 with
      | some (B2, r2) =>
        match takeContByte r2 with
        | some (B3, r3) =>
          match takeContByte r3 with
          | some (B4, r4) =>
            if 0x10000 ≤ (B - 0xF0) * 262144 + (B2 - 0x80) * 4096 +
                  (B3 - 0x80) * 64 + (B4 - 0x80) ∧
                (B - 0xF0) * 262144 + (B2 - 0x80) * 4096 +
                  (B3 - 0x80) * 64 + (B4 - 0x80) ≤ 0x10FFFF then
              some (Char.ofNat ((B - 0xF0) * 262144 + (B2 - 0x80) * 4096 +
                (B3 - 0x80) * 64 + (B4 - 0x80)), r4)
            else none
          | none => none
        | none => none
      | none => none
    else none

theorem takePctByte_length {s r : JStr} {b : Nat} (h : takePctByte s = some (b, r)) :
    r.length + 3 = s.length := by
  match s with
  | pc :: a :: bb :: rr =>
    unfold takePctByte at h
    by_cases hpc : pc = '%'
    · simp only [if_pos hpc, Option.map_eq_some'] at h
      obtain ⟨v, hv, heq⟩ := h
      obtain ⟨h1, h2⟩ := Prod.mk.injEq .. ▸ heq
      subst h2
      simp
    · simp [hpc] at h
  | [] => simp [takePctByte] at h
  | [x] => simp [takePctByte] at h
  | [x, y] => simp [takePctByte] at h

theorem takeContByte_length {s r : JStr} {b : Nat} (h : takeContByte s = some (b, r)) :
    r.length + 3 = s.length := by
  unfold takeContByte at h
  match hp : takePctByte s with
  | some (b0, r0) =>
    rw [hp] at h
    by_cases hb : 0x80 ≤ b0 ∧ b0 < 0xC0
    · simp only [if_pos hb, Option.some.injEq, Prod.mk.injEq] at h
      obtain ⟨h1, h2⟩ := h
      subst h2
      exact takePctByte_length hp
    · simp [hb] at h
  | none => rw [hp] at h; simp at h

theorem decodeOneEscape_length {s r : JStr} {c : Char}
    (h : decodeOneEscape s = some (c, r)) : r.length < s.length := by
  unfold decodeOneEscape at h
  match hp : takePctByte s with
  | none => simp [hp] at h
  | some (B, r1) =>
    simp only [hp] at h
    have hl1 := takePctByte_length hp
    by_cases c1 : B < 0x80
    · rw [if_pos c1] at h
      injection h with h1
      cases h1
      omega
    rw [if_neg c1] at h
    by_cases c2 : B < 0xC0
    · rw [if_pos c2] at h
      cases h
    rw [if_neg c2] at h
    by_cases c3 : B < 0xE0
    · rw [if_pos c3] at h
      match hq2 : takeContByte r1 with
      | none => simp [hq2] at h
      | some (B2, r2) =>
        simp only [hq2] at h
        have hl2 := takeContByte_length hq2
        split at h
        · injection h with h1
          cases h1
          omega
        · cases h
    rw [if_neg c3] at h
    by_cases c4 : B < 0xF0
    · rw [if_pos c4] at h
      match hq2 : takeContByte r1 with
      | none => simp [hq2] at h
      | some (B2, r2) =>
        simp only [hq2] at h
        have hl2 := takeContByte_length hq2
        match hq3 : takeContByte r2 with
        | none => simp [hq3] at h
        | some (B3, r3) =>
          simp only [hq3] at h
          have hl3 := takeContByte_length hq3
          split at h
          · injection h with h1
            cases h1
            omega
          · cases h
    rw [if_neg c4] at h
    by_cases c5 : B < 0xF8
    · rw [if_pos c5] at h
      match hq2 : takeContByte r1 with
      | none => simp [hq2] at h
      | some (B2, r2) =>
        simp only [hq2] at h
        have hl2 := takeContByte_length hq2
        match hq3 : takeContByte r2 with
        | none => simp [hq3] at h
        | some (B3, r3) =>
          simp only [hq3] at h
          have hl3 := takeContByte_length hq3
          match hq4 : takeContByte r3 with
          | none => simp [hq4] at h
          | some (B4, r4) =>
            simp only [hq4] at h
            have hl4 := takeContByte_length hq4
            split at h
            · injection h with h1
              cases h1
              omega
            · cases h
    rw [if_neg c5] at h
    cases h

/-- The ECMAScript builtin `decodeURIComponent` (`none` models a thrown
`URIError`). -/
def decodeURIComponentList : JStr → Option JStr
  | [] => some []
  | c :: rest =>
    if c = '%' then
      match h : decodeOneEscape (c :: rest) with
      | some (ch, r) => (decodeURIComponentList r).map (ch :: ·)
      | none => none
    else (decodeURIComponentList rest).map (c :: ·)
termination_by s => s.length
decreasing_by
  · simpa using decodeOneEscape_length h
  · simp

/-- `decodeSessionKey` from `search-connections.tsx`: `decodeURIComponent`
with the thrown `URIError` caught, returning the raw segment unchanged. -/
def decodeSessionKey (encoded : JStr) : JStr :=
  match decodeURIComponentList encoded with
  | some s => s
  | none => encoded

example : encodeSessionKey "a b".toList = "a%20b".toList := by decide
example : decodeSessionKey "a%20b".toList = "a b".toList := by
  simp [decodeSessionKey, decodeURIComponentList, decodeOneEscape, takePctByte,
    takeContByte, hexPairVal, hexDigitVal]

theorem char_toNat_valid (c : Char) :
    c.toNat < 0xD800 ∨ (0xDFFF < c.toNat ∧ c.toNat < 0x110000) := by
  have h := c.valid
  unfold UInt32.isValidChar Nat.isValidChar at h
  exact h

theorem hexDigitVal_hexUpperDigit : ∀ n, n < 16 → hexDigitVal (hexUpperDigit n) = some n := by
  decide

theorem hexPairVal_pct (b : Nat) (hb : b < 256) :
    hexPairVal (hexUpperDigit (b / 16)) (hexUpperDigit (b % 16)) = some b := by
  have h1 := hexDigitVal_hexUpperDigit (b / 16) (by omega)
  have h2 := hexDigitVal_hexUpperDigit (b % 16) (by omega)
  simp [hexPairVal, h1, h2]
  omega

theorem takePctByte_pct (b : Nat) (hb : b < 256) (r : JStr) :
    takePctByte (pctEncodeByte b ++ r) = some (b, r) := by
  simp [pctEncodeByte, takePctByte, hexPairVal_pct b hb]

theorem takeContByte_pct (b : Nat) (h1 : 0x80 ≤ b) (h2 : b < 0xC0) (r : JStr) :
    takeContByte (pctEncodeByte b ++ r) = some (b, r) := by
  simp [takeContByte, takePctByte_pct b (by omega), h1, h2]

theorem decodeOneEscape_one (n : Nat) (hn : n < 0x80) (rest : JStr) :
    decodeOneEscape (pctEncodeByte n ++ rest) = some (Char.ofNat n, rest) := by
  simp [decodeOneEscape, takePctByte_pct n (by omega), hn]

theorem decodeOneEscape_two (n : Nat) (h1 : 0x80 ≤ n) (h2 : n < 0x800) (rest : JStr) :
    decodeOneEscape
        (pctEncodeByte (0xC0 + n / 64) ++ (pctEncodeByte (0x80 + n % 64) ++ rest)) =
      some (Char.ofNat n, rest) := by
  have hb1 : ¬ (0xC0 + n / 64 < 0x80) := by omega
  have hb2 : ¬ (0xC0 + n / 64 < 0xC0) := by omega
  have hb3 : (0xC0 + n / 64) < 0xE0 := by omega
  simp [decodeOneEscape, takePctByte_pct (0xC0 + n / 64) (by omega),
    takeContByte_pct (0x80 + n % 64) (by omega) (by omega), hb1, hb2, hb3]
  have he : n / 64 * 64 + n % 64 = n := by omega
  rw [he]
  exact ⟨by omega, rfl⟩

theorem decodeOneEscape_three (n : Nat) (h1 : 0x800 ≤ n) (h2 : n < 0x10000)
    (hs : ¬ (0xD800 ≤ n ∧ n ≤ 0xDFFF)) (rest : JStr) :
    decodeOneEscape
        (pctEncodeByte (0xE0 + n / 4096) ++ (pctEncodeByte (0x80 + n / 64 % 64) ++
          (pctEncodeByte (0x80 + n % 64) ++ rest))) =
      some (Char.ofNat n, rest) := by
  have hb1 : ¬ (0xE0 + n / 4096 < 0x80) := by omega
  have hb2 : ¬ (0xE0 + n / 4096 < 0xC0) := by omega
  have hb3 : ¬ (0xE0 + n / 4096 < 0xE0) := by omega
  have hb4 : (0xE0 + n / 4096) < 0xF0 := by omega
  simp [decodeOneEscape, takePctByte_pct (0xE0 + n / 4096) (by omega),
    takeContByte_pct (0x80 + n / 64 % 64) (by omega) (by omega),
    takeContByte_pct (0x80 + n % 64) (by omega) (by omega),
    hb1, hb2, hb3, hb4]
  have he : n / 4096 * 4096 + n / 64 % 64 * 64 + n % 64 = n := by omega
  rw [he]
  exact ⟨⟨by omega, by omega⟩, rfl⟩

theorem decodeOneEscape_four (n : Nat) (h1 : 0x10000 ≤ n) (h2 : n ≤ 0x10FFFF) (rest : JStr) :
    decodeOneEscape
        (pctEncodeByte (0xF0 + n / 262144) ++ (pctEncodeByte (0x80 + n / 4096 % 64) ++
          (pctEncodeByte (0x80 + n / 64 % 64) ++ (pctEncodeByte (0x80 + n % 64) ++ rest)))) =
      some (Char.ofNat n, rest) := by
  have hb1 : ¬ (0xF0 + n / 262144 < 0x80) := by omega
  have hb2 : ¬ (0xF0 + n / 262144 < 0xC0) := by omega
  have hb3 : ¬ (0xF0 + n / 262144 < 0xE0) := by omega
  have hb4 : ¬ (0xF0 + n / 262144 < 0xF0) := by omega
  have hb5 : (0xF0 + n / 262144) < 0xF8 := by omega
  simp [decodeOneEscape, takePctByte_pct (0xF0 + n / 262144) (by omega),
    takeContByte_pct (0x80 + n / 4096 % 64) (by omega) (by omega),
    takeContByte_pct (0x80 + n / 64 % 64) (by omega) (by omega),
    takeContByte_pct (0x80 + n % 64) (by omega) (by omega),
    hb1, hb2, hb3, hb4, hb5]
  have he : n / 262144 * 262144 + n / 4096 % 64 * 4096 + n / 64 % 64 * 64 + n % 64 = n := by
    omega
  rw [he]
  exact ⟨⟨by omega, by omega⟩, rfl⟩

theorem decodeURIComponentList_cons {c : Char} (hne : ¬ c = '%') (rest : JStr) :
    decodeURIComponentList (c :: rest) = (decodeURIComponentList rest).map (c :: ·) := by
  simp [decodeURIComponentList, hne]

theorem decodeURIComponentList_escape {s r : JStr} {ch : Char}
    (hs : ∃ t, s = '%' :: t) (h : decodeOneEscape s = some (ch, r)) :
    decodeURIComponentList s = (decodeURIComponentList r).map (ch :: ·) := by
  obtain ⟨t, rfl⟩ := hs
  simp only [decodeURIComponentList, eq_self_iff_true, if_true]
  split
  · rename_i ch2 r2 heq
    rw [h] at heq
    injection heq with heq2
    cases heq2
    rfl
  · rename_i heq
    rw [h] at heq
    cases heq

theorem decode_encodeChar (c : Char) (rest : JStr) :
    decodeURIComponentList (encodeURIComponentChar c ++ rest) =
      (decodeURIComponentList rest).map (c :: ·) := by
  by_cases hu : unreservedChar c
  · have hne : ¬ c = '%' := fun h => absurd (h ▸ hu) (by decide)
    rw [show encodeURIComponentChar c = [c] by simp [encodeURIComponentChar, hu]]
    simpa using decodeURIComponentList_cons hne rest
  · have hval := char_toNat_valid c
    have henc : encodeURIComponentChar c = (utf8Bytes c.toNat).flatMap pctEncodeByte := by
      simp [encodeURIComponentChar, hu]
    by_cases h1 : c.toNat < 0x80
    · have hb : utf8Bytes c.toNat = [c.toNat] := by simp [utf8Bytes, h1]
      have hd := decodeOneEscape_one c.toNat h1 rest
      rw [Char.ofNat_toNat] at hd
      rw [henc, hb]
      simp only [List.flatMap_cons, List.flatMap_nil, List.append_nil]
      exact decodeURIComponentList_escape ⟨_, rfl⟩ hd
    · by_cases h2 : c.toNat < 0x800
      · have hb : utf8Bytes c.toNat = [0xC0 + c.toNat / 64, 0x80 + c.toNat % 64] := by
          simp [utf8Bytes, h1, h2]
        have hd := decodeOneEscape_two c.toNat (by omega) h2 rest
        rw [Char.ofNat_toNat] at hd
        rw [henc, hb]
        simp only [List.flatMap_cons, List.flatMap_nil, List.append_nil, List.append_assoc]
        exact decodeURIComponentList_escape ⟨_, rfl⟩ hd
      · by_cases h3 : c.toNat < 0x10000
        · have hb : utf8Bytes c.toNat =
              [0xE0 + c.toNat / 4096, 0x80 + c.toNat / 64 % 64, 0x80 + c.toNat % 64] := by
            simp [utf8Bytes, h1, h2, h3]
          have hs : ¬ (0xD800 ≤ c.toNat ∧ c.toNat ≤ 0xDFFF) := by omega
          have hd := decodeOneEscape_three c.toNat (by omega) h3 hs rest
          rw [Char.ofNat_toNat] at hd
          rw [henc, hb]
          simp only [List.flatMap_cons, List.flatMap_nil, List.append_nil, List.append_assoc]
          exact decodeURIComponentList_escape ⟨_, rfl⟩ hd
        · have hb : utf8Bytes c.toNat =
              [0xF0 + c.toNat / 262144, 0x80 + c.toNat / 4096 % 64,
               0x80 + c.toNat / 64 % 64, 0x80 + c.toNat % 64] := by
            simp [utf8Bytes, h1, h2, h3]
          have hd := decodeOneEscape_four c.toNat (by omega) (by omega) rest
          rw [Char.ofNat_toNat] at hd
          rw [henc, hb]
          simp only [List.flatMap_cons, List.flatMap_nil, List.append_nil, List.append_assoc]
          exact decodeURIComponentList_escape ⟨_, rfl⟩ hd

theorem decodeURIComponentList_encodeURIComponent (s : JStr) :
    decodeURIComponentList (encodeURIComponent s) = some s := by
  induction s with
  | nil => simp [encodeURIComponent, decodeURIComponentList]
  | cons c cs ih =>
    simp only [encodeURIComponent, List.flatMap_cons] at *
    rw [decode_encodeChar, ih]
    rfl

/-- C1: for every name string, including names containing reserved
registry-path characters, decoding the encoded key segment returns the
original name: `decodeSessionKey (encodeSessionKey name) = name`. -/
theorem C1_decodeSessionKey_encodeSessionKey (name : JStr) :
    decodeSessionKey (encodeSessionKey name) = name := by
  simp [decodeSessionKey, encodeSessionKey, decodeURIComponentList_encodeURIComponent]

theorem char_toNat_ofNat_small (n : Nat) (h : n < 0xD800) : (Char.ofNat n).toNat = n := by
  unfold Char.ofNat
  rw [dif_pos (Or.inl h)]
  rfl

/-- A JavaScript number as it matters here. Finite values are modelled as
exact rationals; every claim that inspects a number only does integrality and
range checks on values where binary64 floats are exact. -/
inductive JSNum
  | nan
  | posInf
  | negInf
  | num (q : ℚ)
deriving DecidableEq

/-- `Number.isInteger`. -/
def jsIsInteger : JSNum → Bool
  | .num q => q.den = 1
  | _ => false

/-- `x <= b` for a number `x` and literal `b`; `NaN` compares false. -/
def jsLe (x : JSNum) (b : ℚ) : Bool :=
  match x with
  | .nan => false
  | .posInf => false
  | .negInf => true
  | .num q => q ≤ b

/-- `x > b` for a number `x` and literal `b`; `NaN` compares false. -/
def jsGt (x : JSNum) (b : ℚ) : Bool :=
  match x with
  | .nan => false
  | .posInf => true
  | .negInf => false
  | .num q => b < q

/-- The port check shared by all three submit handlers:
`!Number.isInteger(portNum) || portNum <= 0 || portNum > 65535`. -/
def invalidPort (portNum : JSNum) : Bool :=
  !jsIsInteger portNum || jsLe portNum 0 || jsGt portNum 65535

def digitVal (c : Char) : Option Nat :=
  if 48 ≤ c.toNat ∧ c.toNat ≤ 57 then some (c.toNat - 48) else none

def natOfDigits (base : Nat) (ds : List Nat) : Nat :=
  ds.foldl (fun a d => a * base + d) 0

def charDigits (s : JStr) : List Nat := s.map (fun c => c.toNat - 48)

/-- Exponent part of a decimal literal, after the `e`/`E`. -/
def parseExpTail (s : JStr) : Option ℤ :=
  match s with
  | [] => none
  | c :: r =>
    let p : ℤ × JStr :=
      if c = '+' then (1, r) else if c = '-' then (-1, r) else (1, c :: r)
    if p.2 ≠ [] ∧ p.2.all Char.isDigit then
      some (p.1 * (natOfDigits 10 (charDigits p.2) : ℤ))
    else none

/-- An unsigned `StrDecimalLiteral` (`123`, `1.5`, `.5`, `1.`, with optional
exponent); the whole input must match. -/
def parseUnsignedDec (s : JStr) : Option ℚ :=
  let ip := s.takeWhile Char.isDigit
  let rest1 := s.dropWhile Char.isDigit
  match rest1 with
  | '.' :: rest2 =>
    let fp := rest2.takeWhile Char.isDigit
    let rest3 := rest2.dropWhile Char.isDigit
    if ip = [] ∧ fp = [] then none
    else
      let mant : ℚ := (natOfDigits 10 (charDigits ip) : ℚ) +
        (natOfDigits 10 (charDigits fp) : ℚ) / ((10 : ℚ) ^ fp.length)
      match rest3 with
      | [] => some mant
      | 'e' :: r => (parseExpTail r).map (fun k => mant * (10 : ℚ) ^ k)
      | 'E' :: r => (parseExpTail r).map (fun k => mant * (10 : ℚ) ^ k)
      | _ => none
  | _ =>
    if ip = [] then none
    else
      let mant : ℚ := (natOfDigits 10 (charDigits ip) : ℚ)
      match rest1 with
      | [] => some mant
      | 'e' :: r => (parseExpTail r).map (fun k => mant * (10 : ℚ) ^ k)
      | 'E' :: r => (parseExpTail r).map (fun k => mant * (10 : ℚ) ^ k)
      | _ => none

def binDigitVal (c : Char) : Option Nat :=
  if c = '0' then some 0 else if c = '1' then some 1 else none

def octDigitVal (c : Char) : Option Nat :=
  if 48 ≤ c.toNat ∧ c.toNat ≤ 55 then some (c.toNat - 48) else none

/-- Digits of a non-decimal integer literal after its `0x`/`0o`/`0b` marker;
the whole remainder must be digits of the base. -/
def parseRadixTail (base : Nat) (dv : Char → Option Nat) (s : JStr) : Option ℚ :=
  if s ≠ [] ∧ s.all (fun c => (dv c).isSome) then
    some ((natOfDigits base (s.map (fun c => (dv c).getD 0)) : ℚ))
  else none

/-- Signed decimal (or `Infinity`) branch of string-to-number conversion. -/
def parseSignedDec (t : JStr) : JSNum :=
  let p : ℚ × JStr :=
    if t.head? = some '+' then (1, t.tail)
    else if t.head? = some '-' then (-1, t.tail) else (1, t)
  if p.2 = "Infinity".toList then (if p.1 = 1 then .posInf else .negInf)
  else
    match parseUnsignedDec p.2 with
    | some q => .num (if p.1 = 1 then q else -q)
    | none => .nan

/-- The ECMAScript `ToNumber` conversion of a string, `Number(s)`: trims
whitespace, empty gives `0`, then a `StrNumericLiteral` (decimal with optional
sign and exponent, `Infinity`, or unsigned `0x`/`0o`/`0b` literals); anything
else is `NaN`. Rationals stand in for binary64 values. -/
def jsToNumber (s : JStr) : JSNum :=
  let t := jsTrim s
  match t with
  | [] => .num 0
  | z :: x :: r =>
    if z = '0' ∧ (x = 'x' ∨ x = 'X') then
      match parseRadixTail 16 hexDigitVal r with
      | some q => .num q
      | none => .nan
    else if z = '0' ∧ (x = 'o' ∨ x = 'O') then
      match parseRadixTail 8 octDigitVal r with
      | some q => .num q
      | none => .nan
    else if z = '0' ∧ (x = 'b' ∨ x = 'B') then
      match parseRadixTail 2 binDigitVal r with
      | some q => .num q
      | none => .nan
    else parseSignedDec t
  | _ => parseSignedDec t

/-- `parseInt(s, radix)` for the radices the source uses (10 and 16): skip
leading whitespace, optional sign, an optional `0x`/`0X` marker when the radix
is 16, then the longest prefix of digits of the radix; no digits is `NaN`. -/
def parseIntJS (radix : Nat) (s : JStr) : JSNum :=
  let s1 := s.dropWhile jsWhitespace
  let p : ℤ × JStr :=
    if s1.head? = some '+' then (1, s1.tail)
    else if s1.head? = some '-' then (-1, s1.tail) else (1, s1)
  let s3 := if radix = 16 then
      match p.2 with
      | z :: x :: r => if z = '0' ∧ (x = 'x' ∨ x = 'X') then r else p.2
      | _ => p.2
    else p.2
  let dv : Char → Option Nat := if radix = 16 then hexDigitVal else digitVal
  let digits := s3.takeWhile (fun c => (dv c).isSome)
  if digits = [] then .nan
  else
    if p.1 = 1 then .num ((natOfDigits radix (digits.map (fun c => (dv c).getD 0)) : ℚ))
    else .num (-(natOfDigits radix (digits.map (fun c => (dv c).getD 0)) : ℚ))

def natToDecAux : Nat → Nat → JStr
  | 0, _ => []
  | fuel + 1, n =>
    if n < 10 then [Char.ofNat (48 + n)]
    else natToDecAux fuel (n / 10) ++ [Char.ofNat (48 + n % 10)]

/-- Decimal rendering of a natural number. -/
def natToDec (n : Nat) : JStr := natToDecAux (n + 1) n

def natToHexLowerAux : Nat → Nat → JStr
  | 0, _ => []
  | fuel + 1, n =>
    if n < 16 then [hexLowerDigit n]
    else natToHexLowerAux fuel (n / 16) ++ [hexLowerDigit (n % 16)]

/-- Lowercase hexadecimal rendering of a natural number (as `reg query`
displays `REG_DWORD` data, after its `0x` marker). -/
def natToHexLower (n : Nat) : JStr := natToHexLowerAux (n + 1) n

/-- `String()` on a number. Finite non-integers never reach a rendering in the
verified paths (every rendered number was validated as an integer first), so
their binary64 shortest-representation text is not modelled. -/
def jsNumToString : JSNum → JStr
  | .nan => "NaN".toList
  | .posInf => "Infinity".toList
  | .negInf => "-Infinity".toList
  | .num q =>
    if q.den = 1 then
      if 0 ≤ q.num then natToDec q.num.toNat else '-' :: natToDec (-q.num).toNat
    else "?".toList

example : jsToNumber "".toList = .num 0 := by decide
example : jsToNumber " 22 ".toList = .num 22 := by decide
example : jsToNumber "0x16".toList = .num 22 := by decide
example : jsToNumber "-3".toList = .num (-3) := by decide
example : jsToNumber "abc".toList = .nan := by decide
example : invalidPort (jsToNumber "0".toList) = true := by decide
example : invalidPort (jsToNumber "65536".toList) = true := by decide
example : invalidPort (jsToNumber "22".toList) = false := by decide
example : parseIntJS 16 "0x16".toList = .num 22 := by decide
example : parseIntJS 10 "banana".toList = .nan := by decide
example : parseIntJS 10 "12abc".toList = .num 12 := by decide

/-- `reg.exe` parsing of decimal `/d` data for a `REG_DWORD` value. -/
def parseDecNat (s : JStr) : Option Nat :=
  if s ≠ [] ∧ s.all Char.isDigit then some (natOfDigits 10 (charDigits s)) else none

theorem natOfDigits_append (base : Nat) (ds : List Nat) (d : Nat) :
    natOfDigits base (ds ++ [d]) = natOfDigits base ds * base + d := by
  simp [natOfDigits, List.foldl_append]

theorem isDigit_ofNat_digit : ∀ m, m < 10 → (Char.ofNat (48 + m)).isDigit = true := by
  decide

theorem natToDecAux_spec : ∀ fuel n, n < fuel →
    (natToDecAux fuel n).all Char.isDigit = true ∧
      natOfDigits 10 (charDigits (natToDecAux fuel n)) = n := by
  intro fuel
  induction fuel with
  | zero => intro n h; omega
  | succ f ih =>
    intro n h
    by_cases h10 : n < 10
    · rw [natToDecAux, if_pos h10]
      refine ⟨by simpa using isDigit_ofNat_digit n h10, ?_⟩
      simp [charDigits, natOfDigits, char_toNat_ofNat_small (48 + n) (by omega)]
    · rw [natToDecAux, if_neg h10]
      obtain ⟨iha, ihv⟩ := ih (n / 10) (by omega)
      constructor
      · simp only [List.all_append, iha, Bool.true_and, List.all_cons, List.all_nil,
          Bool.and_true]
        exact isDigit_ofNat_digit (n % 10) (by omega)
      · simp only [charDigits, List.map_append, List.map_cons, List.map_nil]
        rw [show (charDigits (natToDecAux f (n / 10)) = List.map (fun c => c.toNat - 48)
          (natToDecAux f (n / 10))) from rfl] at ihv
        rw [natOfDigits_append, ihv, char_toNat_ofNat_small (48 + n % 10) (by omega)]
        omega

theorem natToDec_spec (n : Nat) :
    (natToDec n).all Char.isDigit = true ∧
      natOfDigits 10 (charDigits (natToDec n)) = n :=
  natToDecAux_spec (n + 1) n (by omega)

theorem natToDec_ne_nil (n : Nat) : natToDec n ≠ [] := by
  rw [natToDec, natToDecAux]
  by_cases h : n < 10
  · rw [if_pos h]; simp
  · rw [if_neg h]; simp

theorem parseDecNat_natToDec (n : Nat) : parseDecNat (natToDec n) = some n := by
  obtain ⟨ha, hv⟩ := natToDec_spec n
  simp [parseDecNat, natToDec_ne_nil n, ha, hv, List.all_eq_true.mp ha]

theorem hexDigitVal_hexLowerDigit : ∀ m, m < 16 → hexDigitVal (hexLowerDigit m) = some m := by
  decide

theorem natToHexLowerAux_spec : ∀ fuel n, n < fuel →
    (natToHexLowerAux fuel n).all (fun c => (hexDigitVal c).isSome) = true ∧
      natOfDigits 16 ((natToHexLowerAux fuel n).map (fun c => (hexDigitVal c).getD 0)) = n := by
  intro fuel
  induction fuel with
  | zero => intro n h; omega
  | succ f ih =>
    intro n h
    by_cases h16 : n < 16
    · rw [natToHexLowerAux, if_pos h16]
      refine ⟨by simp [hexDigitVal_hexLowerDigit n h16], ?_⟩
      simp [natOfDigits, hexDigitVal_hexLowerDigit n h16]
    · rw [natToHexLowerAux, if_neg h16]
      obtain ⟨iha, ihv⟩ := ih (n / 16) (by omega)
      constructor
      · simp only [List.all_append, iha, Bool.true_and, List.all_cons, List.all_nil,
          Bool.and_true]
        simp [hexDigitVal_hexLowerDigit (n % 16) (by omega)]
      · simp only [List.map_append, List.map_cons, List.map_nil]
        rw [natOfDigits_append, ihv, hexDigitVal_hexLowerDigit (n % 16) (by omega)]
        simp
        omega

theorem natToHexLower_spec (n : Nat) :
    (natToHexLower n).all (fun c => (hexDigitVal c).isSome) = true ∧
      natOfDigits 16 ((natToHexLower n).map (fun c => (hexDigitVal c).getD 0)) = n :=
  natToHexLowerAux_spec (n + 1) n (by omega)

theorem natToHexLower_ne_nil (n : Nat) : natToHexLower n ≠ [] := by
  rw [natToHexLower, natToHexLowerAux]
  by_cases h : n < 16
  · rw [if_pos h]; simp
  · rw [if_neg h]; simp

/-! ## Registry model

The registry is a list of keys, each holding named values. `reg.exe`
invocations made by the source are modelled as structured commands (shell
quoting is assumed to transport the argument strings faithfully). -/

inductive RegType
  | sz
  | dword
deriving DecidableEq

inductive RegData
  | str (s : JStr)
  | dword (n : Nat)
deriving DecidableEq

structure RegValue where
  name : JStr
  data : RegData
deriving DecidableEq

structure RegKey where
  path : JStr
  values : List RegValue
deriving DecidableEq

abbrev Registry := List RegKey

/-- One `reg.exe` command as built by the source. -/
inductive RegCmd
  | addKey (key : JStr)
  | addValue (key : JStr) (vname : JStr) (ty : RegType) (data : JStr)
  | deleteKey (key : JStr)
deriving DecidableEq

def lookupKey (r : Registry) (key : JStr) : Option RegKey :=
  r.find? (fun k => k.path == key)

def setValue (vs : List RegValue) (vname : JStr) (d : RegData) : List RegValue :=
  if vs.any (fun v => v.name == vname) then
    vs.map (fun v => if v.name == vname then { v with data := d } else v)
  else vs ++ [⟨vname, d⟩]

def updateKey (r : Registry) (key : JStr) (f : RegKey → RegKey) : Registry :=
  r.map (fun k => if k.path == key then f k else k)

/-- Effect of one command on the registry; `none` is a failed command
(nonzero exit status): deleting a missing key fails, and a `REG_DWORD` add
fails when its data is not a decimal number. -/
def applyCmd (c : RegCmd) (r : Registry) : Option Registry :=
  match c with
  | .addKey key =>
    match lookupKey r key with
    | some _ => some r
    | none => some (r ++ [⟨key, []⟩])
  | .addValue key vname ty data =>
    let d : Option RegData :=
      match ty with
      | .sz => some (.str data)
      | .dword =>
        match parseDecNat data with
        | some n => some (.dword n)
        | none => none
    match d with
    | none => none
    | some d0 =>
      match lookupKey r key with
      | some _ =>
        some (updateKey r key (fun k => { k with values := setValue k.values vname d0 }))
      | none => some (r ++ [⟨key, [⟨vname, d0⟩]⟩])
  | .deleteKey key =>
    match lookupKey r key with
    | some _ => some (r.filter (fun k => !(k.path == key)))
    | none => none

/-- Run commands in order; the oracle `ok` injects external failures by step
index. Execution stops at the first failing step, leaving earlier effects in
place, and reports that step's index. -/
def runCmds (ok : Nat → Bool) : Nat → List RegCmd → Registry → Registry × Option Nat
  | _, [], r => (r, none)
  | i, c :: cs, r =>
    if ok i then
      match applyCmd c r with
      | some r2 => runCmds ok (i + 1) cs r2
      | none => (r, some i)
    else (r, some i)

def sessionsRoot : JStr := "HKCU\\Software\\SimonTatham\\PuTTY\\Sessions".toList

/-- `` `HKCU\\...\\Sessions\\${encodeSessionKey(sessionName)}` ``. -/
def sessionKeyPath (sessionName : JStr) : JStr :=
  sessionsRoot ++ '\\' :: encodeSessionKey sessionName

/-- The runtime shape of the session `values` record. `Protocol` and
`CloseOnExit` are plain strings at runtime: the source's TypeScript casts on
read do not check them. -/
structure SessionValues where
  HostName : JStr
  PortNumber : JSNum
  Protocol : JStr
  CloseOnExit : JStr
deriving DecidableEq

/-- The `commands` array built in `writeRegistryValues` (the four value-set
steps, in source order). -/
def writeValueCmds (baseKey : JStr) (values : SessionValues) : List RegCmd :=
  [.addValue baseKey "HostName".toList .sz values.HostName,
   .addValue baseKey "PortNumber".toList .dword (jsNumToString values.PortNumber),
   .addValue baseKey "Protocol".toList .sz values.Protocol,
   .addValue baseKey "CloseOnExit".toList .sz values.CloseOnExit]

/-- All commands `writeRegistryValues` issues, in order: key creation, then
`HostName`, `PortNumber`, `Protocol`, `CloseOnExit`. -/
def writeAllCmds (sessionName : JStr) (values : SessionValues) : List RegCmd :=
  .addKey (sessionKeyPath sessionName) ::
    writeValueCmds (sessionKeyPath sessionName) values

/-- `writeRegistryValues`: the initial `reg add "<key>" /f`, then the
`runNext` loop over the `commands` array; any failing step rejects the
promise (`some i` names the failing step) and stops the sequence. -/
def writeRegistryValues (ok : Nat → Bool) (sessionName : JStr) (values : SessionValues)
    (r : Registry) : Registry × Option Nat :=
  let baseKey := sessionKeyPath sessionName
  if ok 0 then
    match applyCmd (.addKey baseKey) r with
    | some r1 => runCmds ok 1 (writeValueCmds baseKey values) r1
    | none => (r, some 0)
  else (r, some 0)

theorem writeRegistryValues_eq_runCmds (ok : Nat → Bool) (sessionName : JStr)
    (values : SessionValues) (r : Registry) :
    writeRegistryValues ok sessionName values r =
      runCmds ok 0 (writeAllCmds sessionName values) r := by
  unfold writeRegistryValues writeAllCmds runCmds
  by_cases h : ok 0
  · simp only [h, if_true]
    match applyCmd (.addKey (sessionKeyPath sessionName)) r with
    | some r1 => rfl
    | none => rfl
  · simp [h]

/-! ## `reg query` output and `readSessionValues` -/

def regTypeName : RegData → JStr
  | .str _ => "REG_SZ".toList
  | .dword _ => "REG_DWORD".toList

/-- `reg query` displays `REG_DWORD` data as lowercase hexadecimal with a
`0x` marker, and string data verbatim. -/
def renderRegData : RegData → JStr
  | .str s => s
  | .dword n => '0' :: 'x' :: natToHexLower n

def indent4 : JStr := [' ', ' ', ' ', ' ']

def renderValueLine (v : RegValue) : JStr :=
  indent4 ++ v.name ++ indent4 ++ regTypeName v.data ++ indent4 ++ renderRegData v.data

/-- `reg query` prints the canonical hive name: the `HKCU` prefix the source
writes is displayed as `HKEY_CURRENT_USER`. -/
def canonPath (key : JStr) : JStr :=
  "HKEY_CURRENT_USER".toList ++ key.drop 4

def joinLines : List JStr → JStr
  | [] => []
  | [l] => l
  | l :: l2 :: ls => l ++ '\r' :: '\n' :: joinLines (l2 :: ls)

/-- `reg query "<key>"` stdout: the canonical key line, then one line per
value; `none` when the key does not exist (nonzero exit status). -/
def queryKey (r : Registry) (key : JStr) : Option JStr :=
  match lookupKey r key with
  | some k => some (joinLines (canonPath key :: k.values.map renderValueLine))
  | none => none

/-- `stdout.split(/\r?\n/)`: a `\n` splits, consuming one `\r` directly
before it; a lone `\r` does not split. -/
def splitLinesCR : JStr → List JStr
  | [] => [[]]
  | [c] => if c = '\n' then [[], []] else [[c]]
  | c :: d :: rest =>
    if c = '\n' then [] :: splitLinesCR (d :: rest)
    else if c = '\r' ∧ d = '\n' then [] :: splitLinesCR rest
    else
      match splitLinesCR (d :: rest) with
      | l :: ls => (c :: l) :: ls
      | [] => [[c]]

/-- `[A-Za-z0-9_]`. -/
def isWordChar (c : Char) : Bool :=
  decide ((65 ≤ c.toNat ∧ c.toNat ≤ 90) ∨ (97 ≤ c.toNat ∧ c.toNat ≤ 122) ∨
    (48 ≤ c.toNat ∧ c.toNat ≤ 57) ∨ c.toNat = 95)

/-- `[A-Z0-9_]`. -/
def isTypeChar (c : Char) : Bool :=
  decide ((65 ≤ c.toNat ∧ c.toNat ≤ 90) ∨ (48 ≤ c.toNat ∧ c.toNat ≤ 57) ∨ c.toNat = 95)

/-- Characters the regex `.` matches (everything except line terminators). -/
def dotMatches (c : Char) : Bool :=
  decide (¬(c.toNat = 10 ∨ c.toNat = 13 ∨ c.toNat = 0x2028 ∨ c.toNat = 0x2029))

/-- The regex `^\s*([A-Za-z0-9_]+)\s+REG_[A-Z0-9_]+\s+(.+)$` from
`readSessionValues`, as a function returning the two capture groups (value
name, raw value). All character-class boundaries are disjoint, so matching is
deterministic except for the final `\s+(.+)$`: on an all-whitespace tail,
backtracking makes `(.+)` take the last character back from `\s+`. -/
def parseValueLine (l : JStr) : Option (JStr × JStr) :=
  let l1 := l.dropWhile jsWhitespace
  let name := l1.takeWhile isWordChar
  let r1 := l1.dropWhile isWordChar
  if name = [] then none
  else
    let ws1 := r1.takeWhile jsWhitespace
    let r2 := r1.dropWhile jsWhitespace
    if ws1 = [] then none
    else
      match r2 with
      | 'R' :: 'E' :: 'G' :: '_' :: r3 =>
        let ty := r3.takeWhile isTypeChar
        let r4 := r3.dropWhile isTypeChar
        if ty = [] then none
        else
          let ws2 := r4.takeWhile jsWhitespace
          let v := r4.dropWhile jsWhitespace
          if v ≠ [] then
            if ws2 ≠ [] ∧ v.all dotMatches then some (name, v) else none
          else
            if 2 ≤ ws2.length ∧ dotMatches (ws2.getLastD ' ') then
              some (name, [ws2.getLastD ' '])
            else none
      | _ => none

/-- The defaults `readSessionValues` starts from and falls back to. -/
def defaultSessionValues : SessionValues :=
  { HostName := [], PortNumber := .num 23, Protocol := "raw".toList,
    CloseOnExit := "onexit".toList }

/-- `/^0x/i.test(value)`. -/
def testHexMarker (v : JStr) : Bool :=
  match v with
  | z :: x :: _ => decide (z = '0' ∧ (x = 'x' ∨ x = 'X'))
  | _ => false

/-- One iteration of the `for (const line of lines)` loop body of
`readSessionValues`. -/
def readLineFold (acc : SessionValues) (line : JStr) : SessionValues :=
  match parseValueLine line with
  | none => acc
  | some (vname, raw) =>
    let value := jsTrim raw
    let acc1 := if vname = "HostName".toList then { acc with HostName := value } else acc
    let acc2 := if vname = "PortNumber".toList then
        { acc1 with PortNumber :=
            if testHexMarker value then parseIntJS 16 value else parseIntJS 10 value }
      else acc1
    let acc3 := if vname = "Protocol".toList then { acc2 with Protocol := value } else acc2
    if vname = "CloseOnExit".toList then { acc3 with CloseOnExit := value } else acc3

/-- `readSessionValues` applied to the outcome of its `reg query` call
(`none` models the callback receiving an error). -/
def readSessionValuesOutput (queryResult : Option JStr) : SessionValues :=
  match queryResult with
  | none => defaultSessionValues
  | some stdout => (splitLinesCR stdout).foldl readLineFold defaultSessionValues

/-- `readSessionValues(sessionName)` against a modelled registry state. -/
def readSessionValues (r : Registry) (sessionName : JStr) : SessionValues :=
  readSessionValuesOutput (queryKey r (sessionKeyPath sessionName))

example :
    readLineFold defaultSessionValues
      "    PortNumber    REG_DWORD    0x16".toList =
    { defaultSessionValues with PortNumber := .num 22 } := by decide

example :
    readLineFold defaultSessionValues
      "    PortNumber    REG_SZ    banana".toList =
    { defaultSessionValues with PortNumber := .nan } := by decide

example :
    readLineFold defaultSessionValues
      "HKEY_CURRENT_USER\\Software\\SimonTatham\\PuTTY\\Sessions\\box".toList =
    defaultSessionValues := by decide

/-! ## Helper lemmas for the write/read round trip -/

theorem find?_append_none {α : Type} (p : α → Bool) {l1 : List α} (l2 : List α)
    (h : l1.find? p = none) : (l1 ++ l2).find? p = l2.find? p := by
  induction l1 with
  | nil => simp
  | cons a t ih =>
    cases hpa : p a with
    | true => simp [List.find?_cons, hpa] at h
    | false =>
      simp only [List.find?_cons, hpa] at h
      simp [List.find?_cons, hpa, ih h]

theorem takeWhile_append_head {p : Char → Bool} {a b : JStr}
    (ha : ∀ c ∈ a, p c = true) (hb : ∀ c, b.head? = some c → p c = false) :
    (a ++ b).takeWhile p = a ∧ (a ++ b).dropWhile p = b := by
  induction a with
  | nil =>
    simp only [List.nil_append]
    cases b with
    | nil => simp
    | cons c t =>
      have hc := hb c rfl
      simp [List.takeWhile_cons, List.dropWhile_cons, hc]
  | cons x a2 ih =>
    have hx := ha x (by simp)
    have ih2 := ih (fun c hc => ha c (by simp [hc]))
    simp [List.takeWhile_cons, List.dropWhile_cons, hx, ih2.1, ih2.2]

theorem takeWhile_all_eq_self {p : Char → Bool} {a : JStr}
    (ha : ∀ c ∈ a, p c = true) : a.takeWhile p = a :=
  List.takeWhile_eq_self_iff.mpr (by simpa using ha)

theorem lookupKey_append_self {r : Registry} {key : JStr}
    (h : lookupKey r key = none) (vs : List RegValue) :
    lookupKey (r ++ [⟨key, vs⟩]) key = some ⟨key, vs⟩ := by
  unfold lookupKey at *
  rw [find?_append_none _ _ h]
  simp [List.find?_cons]

theorem updateKey_append {r : Registry} {key : JStr}
    (h : lookupKey r key = none) (vs : List RegValue) (f : RegKey → RegKey) :
    updateKey (r ++ [⟨key, vs⟩]) key f = r ++ [f ⟨key, vs⟩] := by
  unfold updateKey
  rw [List.map_append]
  congr 1
  · have hr : ∀ k ∈ r, (if k.path == key then f k else k) = k := by
      intro k hk
      have hn := List.find?_eq_none.mp h k hk
      rw [if_neg (by simpa using hn)]
    rw [List.map_congr_left hr]
    simp
  · simp

theorem applyCmd_addKey_fresh {r : Registry} {key : JStr}
    (h : lookupKey r key = none) :
    applyCmd (.addKey key) r = some (r ++ [⟨key, []⟩]) := by
  simp [applyCmd, h]

theorem applyCmd_addValue_sz {r : Registry} {key : JStr}
    (h : lookupKey r key = none) (vs : List RegValue) (vname data : JStr) :
    applyCmd (.addValue key vname .sz data) (r ++ [⟨key, vs⟩]) =
      some (r ++ [⟨key, setValue vs vname (.str data)⟩]) := by
  simp [applyCmd, lookupKey_append_self h vs, updateKey_append h vs]

theorem applyCmd_addValue_dword {r : Registry} {key : JStr}
    (h : lookupKey r key = none) (vs : List RegValue) (vname data : JStr) (n : Nat)
    (hd : parseDecNat data = some n) :
    applyCmd (.addValue key vname .dword data) (r ++ [⟨key, vs⟩]) =
      some (r ++ [⟨key, setValue vs vname (.dword n)⟩]) := by
  simp [applyCmd, hd, lookupKey_append_self h vs, updateKey_append h vs]

theorem jsNumToString_natCast (p : ℕ) : jsNumToString (.num p) = natToDec p := by
  simp [jsNumToString]

/-- The `Protocol` form value, an enum in the form UI. -/
inductive Protocol
  | raw | telnet | rlogin | ssh | serial
deriving DecidableEq

def protocolName : Protocol → JStr
  | .raw => "raw".toList
  | .telnet => "telnet".toList
  | .rlogin => "rlogin".toList
  | .ssh => "ssh".toList
  | .serial => "serial".toList

/-- The `CloseOnExit` form value, an enum in the form UI. -/
inductive CloseOnExit
  | always | never | onexit
deriving DecidableEq

def closeOnExitName : CloseOnExit → JStr
  | .always => "always".toList
  | .never => "never".toList
  | .onexit => "onexit".toList

theorem wordChar_not_ws {c : Char} (h : isWordChar c = true) : jsWhitespace c = false := by
  simp [isWordChar] at h
  simp [jsWhitespace, jsWhitespaceCodes]
  omega

theorem hexDigit_not_ws {c : Char} (h : (hexDigitVal c).isSome) : jsWhitespace c = false := by
  unfold hexDigitVal at h
  simp [jsWhitespace, jsWhitespaceCodes]
  split at h
  · omega
  · split at h
    · omega
    · split at h
      · omega
      · simp at h

theorem hexDigit_dotMatches {c : Char} (h : (hexDigitVal c).isSome) : dotMatches c = true := by
  unfold hexDigitVal at h
  simp [dotMatches]
  split at h
  · omega
  · split at h
    · omega
    · split at h
      · omega
      · simp at h

theorem head_dropWhile_false {α : Type} (p : α → Bool) (l : List α) :
    ∀ c, (l.dropWhile p).head? = some c → p c = false := by
  have h := List.head?_dropWhile_not p l
  intro c hc
  rw [hc] at h
  exact h

theorem jsTrim_eq_self {s : JStr}
    (h1 : ∀ c, s.head? = some c → jsWhitespace c = false)
    (h2 : ∀ c, s.getLast? = some c → jsWhitespace c = false) :
    jsTrim s = s := by
  unfold jsTrim
  have e1 : s.dropWhile jsWhitespace = s := by
    cases s with
    | nil => simp
    | cons a t => simp [List.dropWhile_cons, h1 a rfl]
  rw [e1]
  have e2 : s.reverse.dropWhile jsWhitespace = s.reverse := by
    cases hs : s.reverse with
    | nil => simp
    | cons a t =>
      have ha : s.getLast? = some a := by
        rw [← List.head?_reverse, hs]
        rfl
      simp [List.dropWhile_cons, h2 a ha]
  rw [e2, List.reverse_reverse]

/-- The value list a fresh write leaves under the session key. -/
def sessionValueList (host : JStr) (p : Nat) (proto coe : JStr) : List RegValue :=
  [⟨"HostName".toList, .str host⟩, ⟨"PortNumber".toList, .dword p⟩,
   ⟨"Protocol".toList, .str proto⟩, ⟨"CloseOnExit".toList, .str coe⟩]

theorem write_fresh (name host proto coe : JStr) (p : Nat) (r : Registry)
    (hfresh : lookupKey r (sessionKeyPath name) = none) :
    writeRegistryValues (fun _ => true) name ⟨host, .num p, proto, coe⟩ r =
      (r ++ [⟨sessionKeyPath name, sessionValueList host p proto coe⟩], none) := by
  have hdata : jsNumToString (JSNum.num (p : ℚ)) = natToDec p := jsNumToString_natCast p
  have hparse : parseDecNat (natToDec p) = some p := parseDecNat_natToDec p
  have e1 : setValue [] "HostName".toList (.str host) =
      [⟨"HostName".toList, .str host⟩] := by
    simp [setValue]
  have b1 : ("HostName".toList == "PortNumber".toList) = false := by decide
  have b2 : ("HostName".toList == "Protocol".toList) = false := by decide
  have b3 : ("PortNumber".toList == "Protocol".toList) = false := by decide
  have b4 : ("HostName".toList == "CloseOnExit".toList) = false := by decide
  have b5 : ("PortNumber".toList == "CloseOnExit".toList) = false := by decide
  have b6 : ("Protocol".toList == "CloseOnExit".toList) = false := by decide
  have e2 : setValue [⟨"HostName".toList, .str host⟩] "PortNumber".toList (.dword p) =
      [⟨"HostName".toList, .str host⟩, ⟨"PortNumber".toList, .dword p⟩] := by
    simp [setValue, b1]
  have e3 : setValue [⟨"HostName".toList, .str host⟩, ⟨"PortNumber".toList, .dword p⟩]
      "Protocol".toList (.str proto) =
      [⟨"HostName".toList, .str host⟩, ⟨"PortNumber".toList, .dword p⟩,
       ⟨"Protocol".toList, .str proto⟩] := by
    simp [setValue, b2, b3]
  have e4 : setValue [⟨"HostName".toList, .str host⟩, ⟨"PortNumber".toList, .dword p⟩,
      ⟨"Protocol".toList, .str proto⟩] "CloseOnExit".toList (.str coe) =
      sessionValueList host p proto coe := by
    simp [setValue, b4, b5, b6, sessionValueList]
  unfold writeRegistryValues
  rw [if_pos rfl]
  rw [applyCmd_addKey_fresh hfresh]
  unfold writeValueCmds runCmds
  rw [if_pos rfl]
  rw [applyCmd_addValue_sz hfresh]
  unfold runCmds
  rw [if_pos rfl]
  simp only [hdata]
  rw [e1, applyCmd_addValue_dword hfresh _ _ _ p hparse]
  unfold runCmds
  rw [if_pos rfl]
  rw [e2, applyCmd_addValue_sz hfresh]
  unfold runCmds
  rw [if_pos rfl]
  rw [e3, applyCmd_addValue_sz hfresh]
  unfold runCmds
  rw [e4]

theorem parseValueLine_render (v : RegValue)
    (hn : v.name ≠ []) (hw : ∀ c ∈ v.name, isWordChar c = true)
    (hd : renderRegData v.data ≠ [])
    (hdh : ∀ c, (renderRegData v.data).head? = some c → jsWhitespace c = false)
    (hdm : ∀ c ∈ renderRegData v.data, dotMatches c = true) :
    parseValueLine (renderValueLine v) = some (v.name, renderRegData v.data) := by
  obtain ⟨trest, hT, htr1, htr2⟩ : ∃ trest,
      regTypeName v.data = 'R' :: 'E' :: 'G' :: '_' :: trest ∧ trest ≠ [] ∧
        ∀ c ∈ trest, isTypeChar c = true := by
    cases v.data with
    | str s => exact ⟨"SZ".toList, rfl, by decide, by decide⟩
    | dword n => exact ⟨"DWORD".toList, rfl, by decide, by decide⟩
  obtain ⟨x, nrest, hname⟩ := List.exists_cons_of_ne_nil hn
  obtain ⟨y, drest, hdata⟩ := List.exists_cons_of_ne_nil hd
  have hiw : ∀ c ∈ indent4, jsWhitespace c = true := by decide
  have hline : renderValueLine v = indent4 ++ (v.name ++ (indent4 ++
      ('R' :: 'E' :: 'G' :: '_' :: (trest ++ (indent4 ++ renderRegData v.data)))))
      := by
    unfold renderValueLine
    rw [hT]
    simp [List.append_assoc]
  have s1 : (indent4 ++ (v.name ++ (indent4 ++
      ('R' :: 'E' :: 'G' :: '_' :: (trest ++ (indent4 ++ renderRegData v.data)))))).dropWhile
        jsWhitespace =
      v.name ++ (indent4 ++
        ('R' :: 'E' :: 'G' :: '_' :: (trest ++ (indent4 ++ renderRegData v.data)))) := by
    refine (takeWhile_append_head hiw ?_).2
    intro c hc
    rw [hname] at hc
    simp only [List.cons_append, List.head?_cons, Option.some.injEq] at hc
    subst hc
    exact wordChar_not_ws (hw _ (by rw [hname]; simp))
  have s2top : (v.name ++ (indent4 ++
      ('R' :: 'E' :: 'G' :: '_' :: (trest ++ (indent4 ++ renderRegData v.data))))).takeWhile
        isWordChar = v.name ∧
      (v.name ++ (indent4 ++
      ('R' :: 'E' :: 'G' :: '_' :: (trest ++ (indent4 ++ renderRegData v.data))))).dropWhile
        isWordChar =
        indent4 ++ ('R' :: 'E' :: 'G' :: '_' :: (trest ++ (indent4 ++ renderRegData v.data))) := by
    refine takeWhile_append_head hw ?_
    intro c hc
    injection hc with hc2
    subst hc2
    decide
  have s3 : (indent4 ++
      ('R' :: 'E' :: 'G' :: '_' :: (trest ++ (indent4 ++ renderRegData v.data)))).takeWhile
        jsWhitespace = indent4 ∧
      (indent4 ++
      ('R' :: 'E' :: 'G' :: '_' :: (trest ++ (indent4 ++ renderRegData v.data)))).dropWhile
        jsWhitespace =
        'R' :: 'E' :: 'G' :: '_' :: (trest ++ (indent4 ++ renderRegData v.data)) := by
    refine takeWhile_append_head hiw ?_
    intro c hc
    injection hc with hc2
    subst hc2
    decide
  have s4 : (trest ++ (indent4 ++ renderRegData v.data)).takeWhile isTypeChar = trest ∧
      (trest ++ (indent4 ++ renderRegData v.data)).dropWhile isTypeChar =
        indent4 ++ renderRegData v.data := by
    refine takeWhile_append_head htr2 ?_
    intro c hc
    injection hc with hc2
    subst hc2
    decide
  have s5 : (indent4 ++ renderRegData v.data).takeWhile jsWhitespace = indent4 ∧
      (indent4 ++ renderRegData v.data).dropWhile jsWhitespace = renderRegData v.data := by
    refine takeWhile_append_head hiw ?_
    intro c hc
    rw [hdata] at hc
    simp only [List.head?_cons, Option.some.injEq] at hc
    subst hc
    exact hdh _ (by rw [hdata]; rfl)
  rw [hline]
  simp only [parseValueLine]
  simp only [s1, s2top.1, s2top.2, s3.1, s3.2, s4.1, s4.2, s5.1, s5.2]
  rw [if_neg hn]
  rw [if_neg (by decide : ¬ (indent4 = []))]
  rw [if_neg htr1]
  rw [if_pos hd]
  rw [if_pos ⟨by decide, by simpa using hdm⟩]

theorem splitLinesCR_cons_crlf (b : JStr) :
    splitLinesCR ('\r' :: '\n' :: b) = [] :: splitLinesCR b := rfl

theorem splitLinesCR_cons_other {x d : Char} (hx1 : ¬ x = '\n')
    (hx2 : ¬ (x = '\r' ∧ d = '\n')) (rest : JStr) :
    splitLinesCR (x :: d :: rest) =
      match splitLinesCR (d :: rest) with
      | l :: ls => (x :: l) :: ls
      | [] => [[x]] := by
  simp only [splitLinesCR]
  rw [if_neg hx1, if_neg hx2]

theorem splitLinesCR_clean : ∀ {s : JStr}, (∀ c ∈ s, c ≠ '\r' ∧ c ≠ '\n') →
    splitLinesCR s = [s] := by
  intro s
  induction s with
  | nil => intro _; rfl
  | cons a t ih =>
    intro h
    cases t with
    | nil =>
      have ha := h a (by simp)
      simp only [splitLinesCR]
      rw [if_neg ha.2]
    | cons d r2 =>
      have ha := h a (by simp)
      have iht := ih (fun c hc => h c (by simp [hc]))
      rw [splitLinesCR_cons_other ha.2 (fun hx => ha.1 hx.1)]
      simp only [iht]

theorem splitLinesCR_crlf : ∀ {a : JStr}, (∀ c ∈ a, c ≠ '\r' ∧ c ≠ '\n') → ∀ (b : JStr),
    splitLinesCR (a ++ '\r' :: '\n' :: b) = a :: splitLinesCR b := by
  intro a
  induction a with
  | nil =>
    intro _ b
    simp only [List.nil_append, splitLinesCR_cons_crlf]
  | cons x a2 ih =>
    intro h b
    have hx := h x (by simp)
    have ih2 := ih (fun c hc => h c (by simp [hc])) b
    cases a2 with
    | nil =>
      simp only [List.cons_append, List.nil_append]
      rw [splitLinesCR_cons_other hx.2 (fun hxx => hx.1 hxx.1)]
      simp only [splitLinesCR_cons_crlf]
    | cons y a3 =>
      simp only [List.cons_append]
      rw [splitLinesCR_cons_other hx.2 (fun hxx => hx.1 hxx.1)]
      simp only [List.cons_append] at ih2
      simp only [ih2]

theorem splitLinesCR_joinLines : ∀ (ls : List JStr), ls ≠ [] →
    (∀ l ∈ ls, ∀ c ∈ l, c ≠ '\r' ∧ c ≠ '\n') →
    splitLinesCR (joinLines ls) = ls := by
  intro ls
  induction ls with
  | nil => intro hne _; exact absurd rfl hne
  | cons l ls2 ih =>
    intro _ h
    cases ls2 with
    | nil => exact splitLinesCR_clean (h l (by simp))
    | cons l2 ls3 =>
      unfold joinLines
      rw [splitLinesCR_crlf (h l (by simp))]
      rw [ih (by simp) (fun x hx => h x (by simp [hx]))]

theorem utf8Bytes_lt_256 {n : Nat} (hn : n < 0x110000) : ∀ b ∈ utf8Bytes n, b < 256 := by
  intro b hb
  unfold utf8Bytes at hb
  split at hb
  · simp at hb; omega
  · split at hb
    · simp at hb; rcases hb with h | h <;> omega
    · split at hb
      · simp at hb; rcases hb with h | h | h <;> omega
      · simp at hb; rcases hb with h | h | h | h <;> omega

theorem hexUpperDigit_not_crlf : ∀ m, m < 16 →
    hexUpperDigit m ≠ '\r' ∧ hexUpperDigit m ≠ '\n' := by decide

theorem encode_no_crlf (s : JStr) : ∀ c ∈ encodeSessionKey s, c ≠ '\r' ∧ c ≠ '\n' := by
  intro c hc
  unfold encodeSessionKey encodeURIComponent at hc
  rw [List.mem_flatMap] at hc
  obtain ⟨a, ha, hca⟩ := hc
  unfold encodeURIComponentChar at hca
  by_cases hu : unreservedChar a
  · rw [if_pos hu] at hca
    simp at hca
    subst hca
    constructor <;> intro h <;> rw [h] at hu <;> exact absurd hu (by decide)
  · rw [if_neg hu] at hca
    rw [List.mem_flatMap] at hca
    obtain ⟨b, hb, hcb⟩ := hca
    have hb256 : b < 256 := utf8Bytes_lt_256 (by have := char_toNat_valid a; omega) b hb
    unfold pctEncodeByte at hcb
    simp at hcb
    rcases hcb with h | h | h
    · subst h; exact ⟨by decide, by decide⟩
    · subst h; exact hexUpperDigit_not_crlf _ (by omega)
    · subst h; exact hexUpperDigit_not_crlf _ (by omega)

theorem natToHexLower_no_crlf (n : Nat) : ∀ c ∈ natToHexLower n, c ≠ '\r' ∧ c ≠ '\n' := by
  intro c hc
  have hall := (natToHexLower_spec n).1
  have hdig : (hexDigitVal c).isSome := by simpa using List.all_eq_true.mp hall c hc
  constructor <;> intro h <;> subst h <;> revert hdig <;> decide

theorem dropWhile_head_false {p : Char → Bool} {l : JStr} {c : Char}
    (hc : l.head? = some c) (hp : p c = false) : l.dropWhile p = l := by
  cases l with
  | nil => simp at hc
  | cons a t =>
    simp only [List.head?_cons, Option.some.injEq] at hc
    subst hc
    simp [List.dropWhile_cons, hp]

theorem takeWhile_head_false {p : Char → Bool} {l : JStr} {c : Char}
    (hc : l.head? = some c) (hp : p c = false) : l.takeWhile p = [] := by
  cases l with
  | nil => simp at hc
  | cons a t =>
    simp only [List.head?_cons, Option.some.injEq] at hc
    subst hc
    simp [List.takeWhile_cons, hp]

theorem parseValueLine_canon (name : JStr) :
    parseValueLine (canonPath (sessionKeyPath name)) = none := by
  have hkey : canonPath (sessionKeyPath name) =
      "HKEY_CURRENT_USER".toList ++
        ('\\' :: ("Software\\SimonTatham\\PuTTY\\Sessions".toList ++
          '\\' :: encodeSessionKey name)) := by
    unfold canonPath sessionKeyPath
    rw [List.drop_append_of_le_length (by decide)]
    rw [(by decide : sessionsRoot.drop 4 =
      '\\' :: "Software\\SimonTatham\\PuTTY\\Sessions".toList)]
    simp
  rw [hkey]
  have hhead : ("HKEY_CURRENT_USER".toList ++
      ('\\' :: ("Software\\SimonTatham\\PuTTY\\Sessions".toList ++
        '\\' :: encodeSessionKey name))).head? = some 'H' := by
    rw [(rfl : "HKEY_CURRENT_USER".toList = 'H' :: "KEY_CURRENT_USER".toList)]
    rfl
  have s1 := dropWhile_head_false (p := jsWhitespace) hhead (by decide)
  have s2 := takeWhile_append_head (p := isWordChar)
    (a := "HKEY_CURRENT_USER".toList)
    (b := '\\' :: ("Software\\SimonTatham\\PuTTY\\Sessions".toList ++
      '\\' :: encodeSessionKey name))
    (by decide)
    (by intro c hc; simp only [List.head?_cons, Option.some.injEq] at hc; subst hc; decide)
  have s3 : ('\\' :: ("Software\\SimonTatham\\PuTTY\\Sessions".toList ++
      '\\' :: encodeSessionKey name)).takeWhile jsWhitespace = [] :=
    takeWhile_head_false rfl (by decide)
  simp only [parseValueLine, s1, s2.1, s2.2, s3]
  simp

theorem parseIntJS16_hexRender (n : Nat) :
    parseIntJS 16 ('0' :: 'x' :: natToHexLower n) = .num n := by
  have hdw : List.dropWhile jsWhitespace ('0' :: 'x' :: natToHexLower n) =
      '0' :: 'x' :: natToHexLower n :=
    dropWhile_head_false rfl (by decide)
  have htw : (natToHexLower n).takeWhile (fun c => (hexDigitVal c).isSome) =
      natToHexLower n :=
    takeWhile_all_eq_self (by
      intro c hc
      simpa using List.all_eq_true.mp (natToHexLower_spec n).1 c hc)
  simp only [parseIntJS, hdw]
  rw [if_neg (by simp : ¬ (('0' :: 'x' :: natToHexLower n).head? = some '+'))]
  rw [if_neg (by simp : ¬ (('0' :: 'x' :: natToHexLower n).head? = some '-'))]
  simp only [if_pos rfl]
  simp [htw, natToHexLower_ne_nil n, (natToHexLower_spec n).2]

theorem jsTrim_eq_self_of_all {s : JStr} (h : ∀ c ∈ s, jsWhitespace c = false) :
    jsTrim s = s :=
  jsTrim_eq_self (fun c hc => h c (List.mem_of_mem_head? hc))
    (fun c hc => h c (List.mem_of_mem_getLast? hc))

theorem head_cond_of_cons {p : Char → Bool} {x : Char} {t : JStr} (hx : p x = false) :
    ∀ c, (x :: t).head? = some c → p c = false := by
  intro c hc
  simp only [List.head?_cons, Option.some.injEq] at hc
  subst hc
  exact hx

theorem last_cond_of_eq {p : Char → Bool} {l : JStr} {x : Char}
    (hl : l.getLast? = some x) (hx : p x = false) :
    ∀ c, l.getLast? = some c → p c = false := by
  intro c hc
  rw [hl] at hc
  injection hc with h
  subst h
  exact hx

theorem dotMatches_ne_crlf {c : Char} (h : dotMatches c = true) :
    c ≠ '\r' ∧ c ≠ '\n' := by
  constructor <;> intro hc <;> subst hc <;> revert h <;> decide

theorem readLineFold_canon (acc : SessionValues) (name : JStr) :
    readLineFold acc (canonPath (sessionKeyPath name)) = acc := by
  simp [readLineFold, parseValueLine_canon]

theorem readSessionValues_write_fresh (name host : JStr) (p : Nat)
    (proto : Protocol) (coe : CloseOnExit) (r : Registry)
    (hfresh : lookupKey r (sessionKeyPath name) = none)
    (hne : host ≠ [])
    (hh1 : ∀ c, host.head? = some c → jsWhitespace c = false)
    (hh2 : ∀ c, host.getLast? = some c → jsWhitespace c = false)
    (hdm : ∀ c ∈ host, dotMatches c = true) :
    readSessionValues
        (writeRegistryValues (fun _ => true) name
          ⟨host, .num p, protocolName proto, closeOnExitName coe⟩ r).1 name =
      ⟨host, .num p, protocolName proto, closeOnExitName coe⟩ := by
  have htrim : jsTrim host = host := jsTrim_eq_self hh1 hh2
  have eHP : ("HostName".toList = "PortNumber".toList) = False := eq_false (by decide)
  have eHR : ("HostName".toList = "Protocol".toList) = False := eq_false (by decide)
  have eHC : ("HostName".toList = "CloseOnExit".toList) = False := eq_false (by decide)
  have ePH : ("PortNumber".toList = "HostName".toList) = False := eq_false (by decide)
  have ePR : ("PortNumber".toList = "Protocol".toList) = False := eq_false (by decide)
  have ePC : ("PortNumber".toList = "CloseOnExit".toList) = False := eq_false (by decide)
  have eRH : ("Protocol".toList = "HostName".toList) = False := eq_false (by decide)
  have eRP : ("Protocol".toList = "PortNumber".toList) = False := eq_false (by decide)
  have eRC : ("Protocol".toList = "CloseOnExit".toList) = False := eq_false (by decide)
  have eCH : ("CloseOnExit".toList = "HostName".toList) = False := eq_false (by decide)
  have eCP : ("CloseOnExit".toList = "PortNumber".toList) = False := eq_false (by decide)
  have eCR : ("CloseOnExit".toList = "Protocol".toList) = False := eq_false (by decide)
  -- the four value lines
  have stepHost : ∀ acc : SessionValues,
      readLineFold acc (renderValueLine ⟨"HostName".toList, .str host⟩) =
        { acc with HostName := host } := by
    intro acc
    have hp := parseValueLine_render ⟨"HostName".toList, .str host⟩
      (by show "HostName".toList ≠ []; decide)
      (by show ∀ c ∈ "HostName".toList, isWordChar c = true; decide)
      hne hh1 hdm
    simp only [renderRegData] at hp
    simp only [readLineFold, hp, eHP, eHR, eHC, if_false, if_true, htrim]
  have hhexall : ∀ c ∈ '0' :: 'x' :: natToHexLower p, jsWhitespace c = false := by
    intro c hc
    simp only [List.mem_cons] at hc
    rcases hc with rfl | rfl | hc
    · decide
    · decide
    · exact hexDigit_not_ws (by simpa using List.all_eq_true.mp (natToHexLower_spec p).1 c hc)
  have stepPort : ∀ acc : SessionValues,
      readLineFold acc (renderValueLine ⟨"PortNumber".toList, .dword p⟩) =
        { acc with PortNumber := .num p } := by
    intro acc
    have hp := parseValueLine_render ⟨"PortNumber".toList, .dword p⟩
      (by show "PortNumber".toList ≠ []; decide)
      (by show ∀ c ∈ "PortNumber".toList, isWordChar c = true; decide)
      (by show ('0' :: 'x' :: natToHexLower p) ≠ []; simp)
      (by show ∀ c, ('0' :: 'x' :: natToHexLower p).head? = some c → jsWhitespace c = false
          exact head_cond_of_cons (by decide))
      (by
        show ∀ c ∈ '0' :: 'x' :: natToHexLower p, dotMatches c = true
        intro c hc
        simp only [List.mem_cons] at hc
        rcases hc with rfl | rfl | hc
        · decide
        · decide
        · exact hexDigit_dotMatches
            (by simpa using List.all_eq_true.mp (natToHexLower_spec p).1 c hc))
    simp only [renderRegData] at hp
    have htm : testHexMarker ('0' :: 'x' :: natToHexLower p) = true := rfl
    simp only [readLineFold, hp, ePH, ePR, ePC, if_false, if_true,
      jsTrim_eq_self_of_all hhexall, htm, parseIntJS16_hexRender]
  have stepProto : ∀ acc : SessionValues,
      readLineFold acc (renderValueLine ⟨"Protocol".toList, .str (protocolName proto)⟩) =
        { acc with Protocol := protocolName proto } := by
    intro acc
    have hp := parseValueLine_render ⟨"Protocol".toList, .str (protocolName proto)⟩
      (by show "Protocol".toList ≠ []; decide)
      (by show ∀ c ∈ "Protocol".toList, isWordChar c = true; decide)
      (by show protocolName proto ≠ []; cases proto <;> decide)
      (by show ∀ c, (protocolName proto).head? = some c → jsWhitespace c = false
          cases proto <;> exact head_cond_of_cons (by decide))
      (by show ∀ c ∈ protocolName proto, dotMatches c = true
          cases proto <;> decide)
    simp only [renderRegData] at hp
    have htr : jsTrim (protocolName proto) = protocolName proto := by
      cases proto <;> decide
    simp only [readLineFold, hp, eRH, eRP, eRC, if_false, if_true, htr]
  have stepCoe : ∀ acc : SessionValues,
      readLineFold acc (renderValueLine ⟨"CloseOnExit".toList, .str (closeOnExitName coe)⟩) =
        { acc with CloseOnExit := closeOnExitName coe } := by
    intro acc
    have hp := parseValueLine_render ⟨"CloseOnExit".toList, .str (closeOnExitName coe)⟩
      (by show "CloseOnExit".toList ≠ []; decide)
      (by show ∀ c ∈ "CloseOnExit".toList, isWordChar c = true; decide)
      (by show closeOnExitName coe ≠ []; cases coe <;> decide)
      (by show ∀ c, (closeOnExitName coe).head? = some c → jsWhitespace c = false
          cases coe <;> exact head_cond_of_cons (by decide))
      (by show ∀ c ∈ closeOnExitName coe, dotMatches c = true
          cases coe <;> decide)
    simp only [renderRegData] at hp
    have htr : jsTrim (closeOnExitName coe) = closeOnExitName coe := by
      cases coe <;> decide
    simp only [readLineFold, hp, eCH, eCP, eCR, if_false, if_true, htr]
  -- cleanliness of the five lines
  have hcleanCanon : ∀ c ∈ canonPath (sessionKeyPath name), c ≠ '\r' ∧ c ≠ '\n' := by
    intro c hc
    unfold canonPath sessionKeyPath at hc
    rw [List.drop_append_of_le_length (by decide)] at hc
    simp only [List.mem_append, List.mem_cons] at hc
    rcases hc with hc | hc | hc | hc
    all_goals first
      | (revert c; decide)
      | (subst hc; exact ⟨by decide, by decide⟩)
      | exact encode_no_crlf name c hc
  have hcleanStr : ∀ (vn s : JStr), (∀ c ∈ vn, c ≠ '\r' ∧ c ≠ '\n') →
      (∀ c ∈ s, c ≠ '\r' ∧ c ≠ '\n') →
      ∀ c ∈ renderValueLine ⟨vn, .str s⟩, c ≠ '\r' ∧ c ≠ '\n' := by
    intro vn s hvn hs c hc
    unfold renderValueLine at hc
    simp only [renderRegData, regTypeName, List.mem_append, List.mem_cons] at hc
    rcases hc with ((((hc | hc) | hc) | hc) | hc) | hc
    all_goals first
      | (revert c; decide)
      | exact hvn c hc
      | exact hs c hc
  have hcleanDw : ∀ (vn : JStr), (∀ c ∈ vn, c ≠ '\r' ∧ c ≠ '\n') →
      ∀ c ∈ renderValueLine ⟨vn, .dword p⟩, c ≠ '\r' ∧ c ≠ '\n' := by
    intro vn hvn c hc
    unfold renderValueLine at hc
    simp only [renderRegData, regTypeName, List.mem_append, List.mem_cons] at hc
    rcases hc with ((((hc | hc) | hc) | hc) | hc) | hc | hc | hc
    all_goals first
      | (revert c; decide)
      | (subst hc; exact ⟨by decide, by decide⟩)
      | exact hvn c hc
      | exact natToHexLower_no_crlf p c hc
  rw [write_fresh name host (protocolName proto) (closeOnExitName coe) p r hfresh]
  unfold readSessionValues
  have hq : queryKey (r ++ [⟨sessionKeyPath name,
        sessionValueList host p (protocolName proto) (closeOnExitName coe)⟩])
      (sessionKeyPath name) =
      some (joinLines (canonPath (sessionKeyPath name) ::
        (sessionValueList host p (protocolName proto) (closeOnExitName coe)).map
          renderValueLine)) := by
    unfold queryKey
    rw [lookupKey_append_self hfresh]
  simp only [hq, readSessionValuesOutput]
  rw [splitLinesCR_joinLines _ (by simp) ?hclean]
  case hclean =>
    intro l hl
    simp only [sessionValueList, List.map_cons, List.map_nil, List.mem_cons,
      List.mem_singleton] at hl
    rcases hl with rfl | rfl | rfl | rfl | rfl | hl
    · exact hcleanCanon
    · exact hcleanStr _ _ (by decide) (fun c hc => dotMatches_ne_crlf (hdm c hc))
    · exact hcleanDw _ (by decide)
    · exact hcleanStr _ _ (by decide) (by cases proto <;> decide)
    · exact hcleanStr _ _ (by decide) (by cases coe <;> decide)
    · simp at hl
  simp only [sessionValueList, List.map_cons, List.map_nil]
  simp only [List.foldl_cons, List.foldl_nil]
  rw [readLineFold_canon, stepHost, stepPort, stepProto, stepCoe]

/-- C2 (amended): for every session name, every non-empty host that has no
leading or trailing whitespace and contains no line-terminator characters,
every integer port, and every protocol and close-on-exit choice, writing the
record with `writeRegistryValues` into a registry without that session key and
reading it back with `readSessionValues` succeeds and returns exactly the
record that was written. -/
theorem C2_writeRead_roundtrip (name host : JStr) (p : Nat) (proto : Protocol)
    (coe : CloseOnExit) (r : Registry)
    (hfresh : lookupKey r (sessionKeyPath name) = none)
    (hne : host ≠ [])
    (hh1 : ∀ c, host.head? = some c → jsWhitespace c = false)
    (hh2 : ∀ c, host.getLast? = some c → jsWhitespace c = false)
    (hdm : ∀ c ∈ host, dotMatches c = true)
    (hp1 : 1 ≤ p) (hp2 : p ≤ 65535) :
    (writeRegistryValues (fun _ => true) name
        ⟨host, .num p, protocolName proto, closeOnExitName coe⟩ r).2 = none ∧
      readSessionValues
          (writeRegistryValues (fun _ => true) name
            ⟨host, .num p, protocolName proto, closeOnExitName coe⟩ r).1 name =
        ⟨host, .num p, protocolName proto, closeOnExitName coe⟩ := by
  refine ⟨?_, readSessionValues_write_fresh name host p proto coe r hfresh hne hh1 hh2 hdm⟩
  rw [write_fresh name host (protocolName proto) (closeOnExitName coe) p r hfresh]

theorem C2_writeRead_roundtrip_witness :
    (writeRegistryValues (fun _ => true) "testbox".toList
        ⟨"10.0.0.5".toList, .num 22, protocolName .ssh, closeOnExitName .never⟩ []).2 =
        none ∧
      readSessionValues
          (writeRegistryValues (fun _ => true) "testbox".toList
            ⟨"10.0.0.5".toList, .num 22, protocolName .ssh, closeOnExitName .never⟩ []).1
          "testbox".toList =
        ⟨"10.0.0.5".toList, .num 22, protocolName .ssh, closeOnExitName .never⟩ :=
  C2_writeRead_roundtrip "testbox".toList "10.0.0.5".toList 22 .ssh .never []
    rfl (by decide) (head_cond_of_cons (by decide))
    (last_cond_of_eq (l := "10.0.0.5".toList) (x := '5') (by decide) (by decide))
    (by decide) (by decide) (by decide)

/-- C2 as stated is false: for the non-empty host `" x"` (leading space),
write-then-read returns host `"x"`, not `" x"`, because `readSessionValues`
trims the value captured from the `reg query` output line. -/
theorem C2_counterexample :
    ¬ (readSessionValues
          (writeRegistryValues (fun _ => true) "s".toList
            ⟨" x".toList, .num 22, "ssh".toList, "never".toList⟩ []).1 "s".toList =
        ⟨" x".toList, .num 22, "ssh".toList, "never".toList⟩) := by decide

theorem foldl_readLineFold_no_match : ∀ (ls : List JStr) (acc : SessionValues),
    (∀ l ∈ ls, parseValueLine l = none) → ls.foldl readLineFold acc = acc := by
  intro ls
  induction ls with
  | nil => intro acc _; rfl
  | cons l t ih =>
    intro acc h
    simp only [List.foldl_cons]
    rw [show readLineFold acc l = acc from by simp [readLineFold, h l (by simp)]]
    exact ih acc (fun x hx => h x (by simp [hx]))

/-- C4 (amended): on a failed `reg query`, `readSessionValues` returns the
fixed default record {HostName "", PortNumber 23, Protocol "raw", CloseOnExit
"onexit"}; on a successful query whose output has no line matching the value
regex it also returns the defaults; but a present-and-malformed stored value
is passed through rather than defaulted: a session whose `PortNumber` holds
the string `banana` reads back with PortNumber `NaN`, not 23. -/
theorem C4_read_failure_defaults :
    readSessionValuesOutput none = defaultSessionValues ∧
    (∀ stdout : JStr, (∀ l ∈ splitLinesCR stdout, parseValueLine l = none) →
      readSessionValuesOutput (some stdout) = defaultSessionValues) ∧
    readSessionValues
        [⟨sessionKeyPath "s".toList, [⟨"PortNumber".toList, .str "banana".toList⟩]⟩]
        "s".toList =
      { defaultSessionValues with PortNumber := .nan } := by
  refine ⟨rfl, ?_, by decide⟩
  intro stdout h
  simp only [readSessionValuesOutput]
  exact foldl_readLineFold_no_match _ _ h

theorem C4_read_failure_defaults_witness :
    readSessionValuesOutput (some "garbage".toList) = defaultSessionValues :=
  C4_read_failure_defaults.2.1 "garbage".toList (by decide)

/-- C4 as stated is false: a successful query with a malformed `PortNumber`
value does not produce the fixed default record. -/
theorem C4_counterexample :
    ¬ (readSessionValues
          [⟨sessionKeyPath "s".toList, [⟨"PortNumber".toList, .str "banana".toList⟩]⟩]
          "s".toList =
        defaultSessionValues) := by decide

/-- Fold a command list over the registry, ignoring failures (used to state
which prefix of the write sequence has taken effect). -/
def applyCmds : List RegCmd → Registry → Registry
  | [], r => r
  | c :: cs, r =>
    match applyCmd c r with
    | some r2 => applyCmds cs r2
    | none => r

theorem applyCmd_addKey_ne_none (key : JStr) (r : Registry) :
    applyCmd (.addKey key) r ≠ none := by
  unfold applyCmd
  cases hk : lookupKey r key <;> simp [hk]

theorem applyCmd_sz_ne_none (key vname data : JStr) (r : Registry) :
    applyCmd (.addValue key vname .sz data) r ≠ none := by
  unfold applyCmd
  cases hk : lookupKey r key <;> simp [hk]

theorem applyCmd_dword_ne_none {data : JStr} {n : Nat} (hd : parseDecNat data = some n)
    (key vname : JStr) (r : Registry) :
    applyCmd (.addValue key vname .dword data) r ≠ none := by
  unfold applyCmd
  simp only [hd]
  cases hk : lookupKey r key <;> simp [hk]

theorem runCmds_all_ok (ok : Nat → Bool) :
    ∀ (cs : List RegCmd) (k : Nat) (r : Registry),
      (∀ j, j < cs.length → ok (k + j) = true) →
      (∀ j c, cs.get? j = some c → ∀ rr, applyCmd c rr ≠ none) →
      runCmds ok k cs r = (applyCmds cs r, none) := by
  intro cs
  induction cs with
  | nil => intro k r _ _; rfl
  | cons c cs2 ih =>
    intro k r hok hne
    unfold runCmds
    rw [show ok k = true from by simpa using hok 0 (by simp)]
    simp only [if_true]
    cases hc : applyCmd c r with
    | none => exact absurd hc (hne 0 c (by simp) r)
    | some r2 =>
      have hrec := ih (k + 1) r2
        (fun j hj => by
          have h := hok (j + 1) (by simpa using hj)
          rwa [show k + (j + 1) = k + 1 + j by omega] at h)
        (fun j cc hg => hne (j + 1) cc (by simpa using hg))
      simp only [hrec]
      conv_rhs => simp only [applyCmds]
      simp only [hc]

theorem runCmds_stop (ok : Nat → Bool) :
    ∀ (cs : List RegCmd) (i k : Nat) (r : Registry),
      i < cs.length →
      (∀ j, j < i → ok (k + j) = true) → ok (k + i) = false →
      (∀ j c, j < i → cs.get? j = some c → ∀ rr, applyCmd c rr ≠ none) →
      runCmds ok k cs r = (applyCmds (cs.take i) r, some (k + i)) := by
  intro cs
  induction cs with
  | nil => intro i k r hi; simp at hi
  | cons c cs2 ih =>
    intro i k r hi hok hfail hne
    match i with
    | 0 =>
      unfold runCmds
      rw [show ok k = false from by simpa using hfail]
      simp [applyCmds]
    | i2 + 1 =>
      unfold runCmds
      rw [show ok k = true from by simpa using hok 0 (by omega)]
      simp only [if_true]
      cases hc : applyCmd c r with
      | none => exact absurd hc (hne 0 c (by omega) (by simp) r)
      | some r2 =>
        have hrec := ih i2 (k + 1) r2 (by simpa using hi)
          (fun j hj => by
            have h := hok (j + 1) (by omega)
            rwa [show k + (j + 1) = k + 1 + j by omega] at h)
          (by rwa [show k + (i2 + 1) = k + 1 + i2 by omega] at hfail)
          (fun j cc hj hg => hne (j + 1) cc (by omega) (by simpa using hg))
        simp only [hrec]
        rw [show (c :: cs2).take (i2 + 1) = c :: cs2.take i2 from rfl]
        conv_rhs => simp only [applyCmds]
        simp only [hc]
        rw [show k + 1 + i2 = k + (i2 + 1) by omega]

theorem writeAllCmds_ne_none (name : JStr) (v : SessionValues) (p : Nat)
    (hport : v.PortNumber = .num p) :
    ∀ j c, (writeAllCmds name v).get? j = some c → ∀ rr, applyCmd c rr ≠ none := by
  have hd : parseDecNat (jsNumToString v.PortNumber) = some p := by
    rw [hport, jsNumToString_natCast]
    exact parseDecNat_natToDec p
  intro j c hg rr
  unfold writeAllCmds writeValueCmds at hg
  match j with
  | 0 => injection hg with h; subst h; exact applyCmd_addKey_ne_none _ _
  | 1 => injection hg with h; subst h; exact applyCmd_sz_ne_none _ _ _ _
  | 2 => injection hg with h; subst h; exact applyCmd_dword_ne_none hd _ _ _
  | 3 => injection hg with h; subst h; exact applyCmd_sz_ne_none _ _ _ _
  | 4 => injection hg with h; subst h; exact applyCmd_sz_ne_none _ _ _ _
  | n + 5 => simp at hg

/-- C6: `writeRegistryValues` issues the key-creation command followed by the
four value-set commands (`HostName`, `PortNumber`, `Protocol`, `CloseOnExit`)
in that order; when step `i` is the first failing step, the promise rejects
with that step (`some i`), no later step is issued, and the registry keeps
exactly the effects of the earlier steps (no rollback); when every step
succeeds the promise resolves. -/
theorem C6_write_stepwise (name : JStr) (v : SessionValues) (r : Registry)
    (ok : Nat → Bool) (p : Nat) (hport : v.PortNumber = .num p) :
    writeAllCmds name v =
      .addKey (sessionKeyPath name) ::
        [.addValue (sessionKeyPath name) "HostName".toList .sz v.HostName,
         .addValue (sessionKeyPath name) "PortNumber".toList .dword
           (jsNumToString v.PortNumber),
         .addValue (sessionKeyPath name) "Protocol".toList .sz v.Protocol,
         .addValue (sessionKeyPath name) "CloseOnExit".toList .sz v.CloseOnExit] ∧
    (∀ i, i < 5 → (∀ j, j < i → ok j = true) → ok i = false →
      writeRegistryValues ok name v r =
        (applyCmds ((writeAllCmds name v).take i) r, some i)) ∧
    ((∀ j, j < 5 → ok j = true) →
      writeRegistryValues ok name v r =
        (applyCmds (writeAllCmds name v) r, none)) := by
  refine ⟨rfl, ?_, ?_⟩
  · intro i hi hpre hfail
    rw [writeRegistryValues_eq_runCmds]
    have h := runCmds_stop ok (writeAllCmds name v) i 0 r
      (by simp [writeAllCmds, writeValueCmds]; omega)
      (fun j hj => by simpa using hpre j hj)
      (by simpa using hfail)
      (fun j cc hj hg => writeAllCmds_ne_none name v p hport j cc hg)
    simpa using h
  · intro hall
    rw [writeRegistryValues_eq_runCmds]
    exact runCmds_all_ok ok (writeAllCmds name v) 0 r
      (fun j hj => by
        rw [show (0 + j) = j by omega]
        refine hall j ?_
        simpa [writeAllCmds, writeValueCmds] using hj)
      (fun j cc hg => writeAllCmds_ne_none name v p hport j cc hg)

theorem C6_write_stepwise_witness :
    writeRegistryValues (fun j => decide (j < 2)) "box".toList
        ⟨"h".toList, .num 22, "raw".toList, "onexit".toList⟩ [] =
      (applyCmds ((writeAllCmds "box".toList
          ⟨"h".toList, .num 22, "raw".toList, "onexit".toList⟩).take 2) [], some 2) :=
  (C6_write_stepwise "box".toList ⟨"h".toList, .num 22, "raw".toList, "onexit".toList⟩
      [] (fun j => decide (j < 2)) 22 rfl).2.1 2 (by omega)
    (fun j hj => by simp [hj]) (by simp)

/-! ## Command handlers (form submit, launch, delete) -/

/-- External state the handlers depend on: the configured `puttyPath`
preference, the `fileExists(puttyPath)` outcome, and the registry failure
oracle. -/
structure Env where
  puttyPath : JStr
  fileExistsResult : Bool
  regOk : Nat → Bool

/-- Observable effects of a handler, in order. -/
inductive Event
  | toast (failure : Bool) (title : JStr)
  | writeInvoke (sessionName : JStr) (values : SessionValues)
  | fileCheck (result : Bool)
  | launch (path : JStr) (args : List JStr)
deriving DecidableEq

structure PuttySession where
  id : JStr
  name : JStr
deriving DecidableEq

/-- `values.savedName?.trim() || values.host.trim()`: JS `||` treats
`undefined` and the empty string as falsy. -/
def savedNameOrHost (savedName : Option JStr) (host : JStr) : JStr :=
  match savedName.map jsTrim with
  | some s => if s = [] then jsTrim host else s
  | none => jsTrim host

/-- `(values.save ? (values.savedName?.trim() || values.host.trim()) : "").trim()`. -/
def sessionNameOf (save : Bool) (savedName : Option JStr) (host : JStr) : JStr :=
  jsTrim (if save then savedNameOrHost savedName host else [])

structure AddFormValues where
  host : JStr
  port : JStr
  protocol : Protocol
  closeOnExit : CloseOnExit
  save : Bool
  savedName : Option JStr

namespace AddConnection

/-- `handleSubmit` of `add-connection.tsx`: validation, optional save (with
immediate launch), or nothing when saving is off. -/
def handleSubmit (env : Env) (r : Registry) (values : AddFormValues) :
    Registry × List Event :=
  let portNum := jsToNumber values.port
  if values.host = [] then
    (r, [.toast true "Host is required".toList])
  else if invalidPort portNum then
    (r, [.toast true "Invalid port".toList])
  else
    let sessionName := sessionNameOf values.save values.savedName values.host
    if values.save then
      let sv : SessionValues := ⟨values.host, portNum, protocolName values.protocol,
        closeOnExitName values.closeOnExit⟩
      let w := writeRegistryValues env.regOk sessionName sv r
      match w.2 with
      | some _ =>
        (w.1, [.writeInvoke sessionName sv, .toast true "Failed to save session".toList])
      | none =>
        (w.1,
          [.writeInvoke sessionName sv, .toast false "Session saved".toList,
           .fileCheck env.fileExistsResult] ++
          (if env.fileExistsResult then
            [.launch env.puttyPath ["-load".toList, sessionName]]
          else [.toast true "PuTTY path not found".toList]))
    else (r, [])

end AddConnection

structure EditFormValues where
  host : JStr
  port : JStr
  protocol : Protocol
  closeOnExit : CloseOnExit

namespace EditConnectionForm

/-- `handleSubmit` of `EditConnectionForm` in `search-connections.tsx`. -/
def handleSubmit (env : Env) (r : Registry) (sessionName : JStr)
    (values : EditFormValues) : Registry × List Event :=
  let portNum := jsToNumber values.port
  if values.host = [] then
    (r, [.toast true "Host is required".toList])
  else if invalidPort portNum then
    (r, [.toast true "Invalid port".toList])
  else
    let sv : SessionValues := ⟨values.host, portNum, protocolName values.protocol,
      closeOnExitName values.closeOnExit⟩
    let w := writeRegistryValues env.regOk sessionName sv r
    match w.2 with
    | some _ =>
      (w.1, [.writeInvoke sessionName sv, .toast true "Failed to update session".toList])
    | none =>
      (w.1,
        [.writeInvoke sessionName sv, .toast false "Session updated".toList,
         .fileCheck env.fileExistsResult] ++
        (if env.fileExistsResult then
          [.launch env.puttyPath ["-load".toList, sessionName]]
        else [.toast true "PuTTY path not found".toList]))

end EditConnectionForm

/-- `protocolToFlag` of `TempEditForm`. -/
def protocolToFlag : Protocol → JStr
  | .ssh => "-ssh".toList
  | .telnet => "-telnet".toList
  | .rlogin => "-rlogin".toList
  | .serial => "-serial".toList
  | .raw => "-raw".toList

namespace TempEditForm

/-- `handleSubmit` of `TempEditForm` in `search-connections.tsx`: validation,
executable check, then a temporary (unsaved) launch. -/
def handleSubmit (env : Env) (values : EditFormValues) : List Event :=
  let portNum := jsToNumber values.port
  if values.host = [] then
    [.toast true "Host is required".toList]
  else if invalidPort portNum then
    [.toast true "Invalid port".toList]
  else
    .fileCheck env.fileExistsResult ::
      (if env.fileExistsResult then
        [.launch env.puttyPath
          [protocolToFlag values.protocol, "-P".toList, jsNumToString portNum,
           values.host]]
      else [.toast true "PuTTY path not found".toList])

end TempEditForm

/-- `launchSession` of `search-connections.tsx`. -/
def launchSession (env : Env) (sessionName : JStr) : List Event :=
  .fileCheck env.fileExistsResult ::
    (if env.fileExistsResult then
      [.launch env.puttyPath ["-load".toList, sessionName]]
    else [.toast true "PuTTY path not found".toList])

/-- `deleteSession` of `search-connections.tsx`: `reg delete` with success
toast and optimistic snapshot filter, or failure toast leaving the snapshot
alone. -/
def deleteSession (env : Env) (sessionName : JStr) (r : Registry)
    (snapshot : List PuttySession) : Registry × List PuttySession × List Event :=
  let key := sessionKeyPath sessionName
  if env.regOk 0 then
    match applyCmd (.deleteKey key) r with
    | some r2 =>
      (r2, snapshot.filter (fun s => ¬ (s.name = sessionName)),
        [.toast false "Deleted".toList])
    | none => (r, snapshot, [.toast true "Failed to delete session".toList])
  else (r, snapshot, [.toast true "Failed to delete session".toList])

theorem getLast?_dropWhile {p : Char → Bool} {l : JStr}
    (h : l.dropWhile p ≠ []) : (l.dropWhile p).getLast? = l.getLast? := by
  obtain ⟨t, ht⟩ := List.dropWhile_suffix (l := l) (p := p)
  conv_rhs => rw [← ht]
  rw [List.getLast?_append_of_ne_nil t h]

theorem jsTrim_head_last (s : JStr) :
    (∀ c, (jsTrim s).head? = some c → jsWhitespace c = false) ∧
    (∀ c, (jsTrim s).getLast? = some c → jsWhitespace c = false) := by
  unfold jsTrim
  constructor
  · intro c hc
    rw [List.head?_reverse] at hc
    by_cases hne : (s.dropWhile jsWhitespace).reverse.dropWhile jsWhitespace = []
    · rw [hne] at hc
      simp at hc
    · rw [getLast?_dropWhile hne, List.getLast?_reverse] at hc
      exact head_dropWhile_false jsWhitespace s c hc
  · intro c hc
    rw [List.getLast?_reverse] at hc
    exact head_dropWhile_false jsWhitespace _ c hc

theorem jsTrim_idem (s : JStr) : jsTrim (jsTrim s) = jsTrim s :=
  jsTrim_eq_self (jsTrim_head_last s).1 (jsTrim_head_last s).2

def isWriteInvoke : Event → Bool
  | .writeInvoke _ _ => true
  | _ => false

def isFailureToast : Event → Bool
  | .toast f _ => f
  | _ => false

/-- C3: on form submission with an empty host or an invalid port (non-integer,
0, 65536, or otherwise outside [1,65535]), neither submit handler invokes
`writeRegistryValues` — the registry is unchanged and no write is issued —
and a validation-failure toast is reported. -/
theorem C3_validation_blocks_write (env : Env) (r : Registry) :
    (∀ values : AddFormValues,
      values.host = [] ∨ invalidPort (jsToNumber values.port) = true →
      (AddConnection.handleSubmit env r values).1 = r ∧
      ((AddConnection.handleSubmit env r values).2.any isWriteInvoke) = false ∧
      ((AddConnection.handleSubmit env r values).2.any isFailureToast) = true) ∧
    (∀ (sessionName : JStr) (values : EditFormValues),
      values.host = [] ∨ invalidPort (jsToNumber values.port) = true →
      (EditConnectionForm.handleSubmit env r sessionName values).1 = r ∧
      ((EditConnectionForm.handleSubmit env r sessionName values).2.any isWriteInvoke)
        = false ∧
      ((EditConnectionForm.handleSubmit env r sessionName values).2.any isFailureToast)
        = true) := by
  constructor
  · intro values h
    by_cases hh : values.host = []
    · simp [AddConnection.handleSubmit, hh, isWriteInvoke, isFailureToast]
    · have hinv := h.resolve_left hh
      simp [AddConnection.handleSubmit, hh, hinv, isWriteInvoke, isFailureToast]
  · intro sessionName values h
    by_cases hh : values.host = []
    · simp [EditConnectionForm.handleSubmit, hh, isWriteInvoke, isFailureToast]
    · have hinv := h.resolve_left hh
      simp [EditConnectionForm.handleSubmit, hh, hinv, isWriteInvoke, isFailureToast]

theorem C3_validation_blocks_write_witness :
    (AddConnection.handleSubmit ⟨"putty.exe".toList, true, fun _ => true⟩ []
        ⟨"h".toList, "65536".toList, .ssh, .never, true, none⟩).1 = [] ∧
      ((AddConnection.handleSubmit ⟨"putty.exe".toList, true, fun _ => true⟩ []
        ⟨"h".toList, "65536".toList, .ssh, .never, true, none⟩).2.any isWriteInvoke)
        = false ∧
      ((AddConnection.handleSubmit ⟨"putty.exe".toList, true, fun _ => true⟩ []
        ⟨"h".toList, "65536".toList, .ssh, .never, true, none⟩).2.any isFailureToast)
        = true :=
  (C3_validation_blocks_write ⟨"putty.exe".toList, true, fun _ => true⟩ []).1
    ⟨"h".toList, "65536".toList, .ssh, .never, true, none⟩ (Or.inr (by decide))

/-- C10: with saving requested, an absent, empty or whitespace-only
saved-name falls back to the trimmed host; a non-blank saved-name is used
trimmed; the resulting stored session name never has leading or trailing
whitespace; and the submit handler's write indeed uses that name. -/
theorem C10_saved_name (host : JStr) (savedName : Option JStr) :
    ((savedName.map jsTrim = none ∨ savedName.map jsTrim = some []) →
      sessionNameOf true savedName host = jsTrim host) ∧
    (∀ s, savedName = some s → jsTrim s ≠ [] →
      sessionNameOf true savedName host = jsTrim s) ∧
    (∀ c, (sessionNameOf true savedName host).head? = some c →
      jsWhitespace c = false) ∧
    (∀ c, (sessionNameOf true savedName host).getLast? = some c →
      jsWhitespace c = false) ∧
    (∀ (env : Env) (r : Registry) (values : AddFormValues),
      values.save = true → ¬ values.host = [] →
      invalidPort (jsToNumber values.port) = false →
      (AddConnection.handleSubmit env r values).2.head? =
        some (.writeInvoke (sessionNameOf true values.savedName values.host)
          ⟨values.host, jsToNumber values.port, protocolName values.protocol,
           closeOnExitName values.closeOnExit⟩)) := by
  refine ⟨?_, ?_, ?_, ?_, ?_⟩
  · intro h
    unfold sessionNameOf savedNameOrHost
    rw [if_pos rfl]
    rcases h with h | h
    · simp only [h]
      exact jsTrim_idem host
    · simp only [h, if_true, eq_self_iff_true]
      exact jsTrim_idem host
  · intro s hs hne
    unfold sessionNameOf savedNameOrHost
    rw [if_pos rfl]
    simp only [hs, Option.map_some']
    rw [if_neg hne]
    exact jsTrim_idem s
  · exact (jsTrim_head_last _).1
  · exact (jsTrim_head_last _).2
  · intro env r values hsave hhost hport
    unfold AddConnection.handleSubmit
    rw [if_neg hhost, if_neg (by simp [hport])]
    rw [hsave]
    simp only [if_true]
    cases hw : (writeRegistryValues env.regOk
        (sessionNameOf true values.savedName values.host)
        ⟨values.host, jsToNumber values.port, protocolName values.protocol,
         closeOnExitName values.closeOnExit⟩ r).2 with
    | some i => simp [hw]
    | none => simp [hw]

theorem C10_saved_name_witness :
    sessionNameOf true (some "  ".toList) " h ".toList = jsTrim " h ".toList ∧
    sessionNameOf true (some " box ".toList) " h ".toList = jsTrim " box ".toList :=
  ⟨(C10_saved_name " h ".toList (some "  ".toList)).1 (Or.inr (by decide)),
   (C10_saved_name " h ".toList (some " box ".toList)).2.1 " box ".toList rfl (by decide)⟩

/-- C8: a saved profile is launched with exactly `["-load", sessionName]`
(both from the session list and after an edit), and a temporary connection
with exactly `[protocol flag, "-P", port as a decimal string, host]`, where
the flag is `-ssh`/`-telnet`/`-rlogin`/`-serial`/`-raw` per the selected
protocol. -/
theorem C8_launch_args (env : Env) (hfe : env.fileExistsResult = true) :
    (∀ sessionName : JStr,
      launchSession env sessionName =
        [.fileCheck true, .launch env.puttyPath ["-load".toList, sessionName]]) ∧
    (∀ (r : Registry) (sessionName : JStr) (values : EditFormValues),
      ¬ values.host = [] → invalidPort (jsToNumber values.port) = false →
      (writeRegistryValues env.regOk sessionName
        ⟨values.host, jsToNumber values.port, protocolName values.protocol,
         closeOnExitName values.closeOnExit⟩ r).2 = none →
      (EditConnectionForm.handleSubmit env r sessionName values).2 =
        [.writeInvoke sessionName
          ⟨values.host, jsToNumber values.port, protocolName values.protocol,
           closeOnExitName values.closeOnExit⟩,
         .toast false "Session updated".toList, .fileCheck true,
         .launch env.puttyPath ["-load".toList, sessionName]]) ∧
    (∀ (values : EditFormValues) (p : Nat),
      ¬ values.host = [] → jsToNumber values.port = .num p →
      invalidPort (jsToNumber values.port) = false →
      TempEditForm.handleSubmit env values =
        [.fileCheck true,
         .launch env.puttyPath
           [protocolToFlag values.protocol, "-P".toList, natToDec p, values.host]]) ∧
    (protocolToFlag .ssh = "-ssh".toList ∧ protocolToFlag .telnet = "-telnet".toList ∧
     protocolToFlag .rlogin = "-rlogin".toList ∧ protocolToFlag .serial = "-serial".toList ∧
     protocolToFlag .raw = "-raw".toList) := by
  refine ⟨?_, ?_, ?_, rfl, rfl, rfl, rfl, rfl⟩
  · intro sessionName
    simp [launchSession, hfe]
  · intro r sessionName values hh hp hw
    unfold EditConnectionForm.handleSubmit
    rw [if_neg hh, if_neg (by simp [hp])]
    simp only [hw, hfe, if_true]
    rfl
  · intro values p hh hnum hp
    unfold TempEditForm.handleSubmit
    rw [if_neg hh, if_neg (by simp [hp])]
    rw [hnum, jsNumToString_natCast]
    simp [hfe]

theorem C8_launch_args_witness :
    TempEditForm.handleSubmit ⟨"putty.exe".toList, true, fun _ => true⟩
        ⟨"example.com".toList, "2222".toList, .ssh, .onexit⟩ =
      [.fileCheck true,
       .launch "putty.exe".toList
         [protocolToFlag .ssh, "-P".toList, natToDec 2222, "example.com".toList]] :=
  (C8_launch_args ⟨"putty.exe".toList, true, fun _ => true⟩ rfl).2.2.1
    ⟨"example.com".toList, "2222".toList, .ssh, .onexit⟩ 2222 (by decide) (by decide)
    (by decide)

/-- Trace discipline: every `launch` event is preceded by a `fileCheck`
that returned `true`. -/
def checkedBeforeLaunch : Bool → List Event → Bool
  | _, [] => true
  | seen, .fileCheck b :: t => checkedBeforeLaunch (seen || b) t
  | seen, .launch _ _ :: t => seen && checkedBeforeLaunch seen t
  | seen, _ :: t => checkedBeforeLaunch seen t

def noLaunch (es : List Event) : Bool :=
  es.all fun e =>
    match e with
    | .launch _ _ => false
    | _ => true

/-- C9: on every code path that can launch the executable — create-form
submit, edit-form submit, temporary-edit submit, and list launch — a
`fileExists` check precedes any launch, every launch is preceded by a check
that returned true, and when the check fails no launch happens and the
distinct `PuTTY path not found` failure toast appears in the event trace
instead. -/
theorem C9_fileExists_before_launch (env : Env) :
    (∀ r values, checkedBeforeLaunch false (AddConnection.handleSubmit env r values).2
        = true ∧
      (env.fileExistsResult = false →
        noLaunch (AddConnection.handleSubmit env r values).2 = true) ∧
      (Event.fileCheck false ∈ (AddConnection.handleSubmit env r values).2 →
        Event.toast true "PuTTY path not found".toList ∈
          (AddConnection.handleSubmit env r values).2)) ∧
    (∀ r sessionName values,
      checkedBeforeLaunch false
          (EditConnectionForm.handleSubmit env r sessionName values).2 = true ∧
      (env.fileExistsResult = false →
        noLaunch (EditConnectionForm.handleSubmit env r sessionName values).2 = true) ∧
      (Event.fileCheck false ∈ (EditConnectionForm.handleSubmit env r sessionName values).2 →
        Event.toast true "PuTTY path not found".toList ∈
          (EditConnectionForm.handleSubmit env r sessionName values).2)) ∧
    (∀ values, checkedBeforeLaunch false (TempEditForm.handleSubmit env values) = true ∧
      (env.fileExistsResult = false →
        noLaunch (TempEditForm.handleSubmit env values) = true) ∧
      (Event.fileCheck false ∈ TempEditForm.handleSubmit env values →
        Event.toast true "PuTTY path not found".toList ∈
          TempEditForm.handleSubmit env values)) ∧
    (∀ sessionName, checkedBeforeLaunch false (launchSession env sessionName) = true ∧
      (env.fileExistsResult = false →
        noLaunch (launchSession env sessionName) = true) ∧
      (Event.fileCheck false ∈ launchSession env sessionName →
        Event.toast true "PuTTY path not found".toList ∈
          launchSession env sessionName)) := by
  refine ⟨?_, ?_, ?_, ?_⟩
  · intro r values
    unfold AddConnection.handleSubmit
    by_cases hh : values.host = []
    · simp [hh, checkedBeforeLaunch, noLaunch]
    · by_cases hp : invalidPort (jsToNumber values.port) = true
      · simp [hh, hp, checkedBeforeLaunch, noLaunch]
      · by_cases hs : values.save
        · simp only [if_neg hh, if_neg hp, hs, if_true]
          cases hw : (writeRegistryValues env.regOk
              (sessionNameOf true values.savedName values.host)
              ⟨values.host, jsToNumber values.port, protocolName values.protocol,
               closeOnExitName values.closeOnExit⟩ r).2 with
          | some i => simp [hs, hw, checkedBeforeLaunch, noLaunch]
          | none =>
            cases hfe : env.fileExistsResult with
            | true => simp [hs, hw, hfe, checkedBeforeLaunch, noLaunch]
            | false => simp [hs, hw, hfe, checkedBeforeLaunch, noLaunch]
        · simp [hh, hp, hs, checkedBeforeLaunch, noLaunch]
  · intro r sessionName values
    unfold EditConnectionForm.handleSubmit
    by_cases hh : values.host = []
    · simp [hh, checkedBeforeLaunch, noLaunch]
    · by_cases hp : invalidPort (jsToNumber values.port) = true
      · simp [hh, hp, checkedBeforeLaunch, noLaunch]
      · simp only [if_neg hh, if_neg hp]
        cases hw : (writeRegistryValues env.regOk sessionName
            ⟨values.host, jsToNumber values.port, protocolName values.protocol,
             closeOnExitName values.closeOnExit⟩ r).2 with
        | some i => simp [hw, checkedBeforeLaunch, noLaunch]
        | none =>
          cases hfe : env.fileExistsResult with
          | true => simp [hw, hfe, checkedBeforeLaunch, noLaunch]
          | false => simp [hw, hfe, checkedBeforeLaunch, noLaunch]
  · intro values
    unfold TempEditForm.handleSubmit
    by_cases hh : values.host = []
    · simp [hh, checkedBeforeLaunch, noLaunch]
    · by_cases hp : invalidPort (jsToNumber values.port) = true
      · simp [hh, hp, checkedBeforeLaunch, noLaunch]
      · cases hfe : env.fileExistsResult with
        | true => simp [hh, hp, hfe, checkedBeforeLaunch, noLaunch]
        | false => simp [hh, hp, hfe, checkedBeforeLaunch, noLaunch]
  · intro sessionName
    cases hfe : env.fileExistsResult with
    | true => simp [launchSession, hfe, checkedBeforeLaunch, noLaunch]
    | false => simp [launchSession, hfe, checkedBeforeLaunch, noLaunch]

theorem C9_fileExists_before_launch_witness :
    checkedBeforeLaunch false
        (launchSession ⟨"putty.exe".toList, false, fun _ => true⟩ "box".toList) = true ∧
      noLaunch (launchSession ⟨"putty.exe".toList, false, fun _ => true⟩ "box".toList)
        = true ∧
      Event.toast true "PuTTY path not found".toList ∈
        launchSession ⟨"putty.exe".toList, false, fun _ => true⟩ "box".toList :=
  ⟨((C9_fileExists_before_launch ⟨"putty.exe".toList, false, fun _ => true⟩).2.2.2
      "box".toList).1,
   ((C9_fileExists_before_launch ⟨"putty.exe".toList, false, fun _ => true⟩).2.2.2
      "box".toList).2.1 rfl,
   ((C9_fileExists_before_launch ⟨"putty.exe".toList, false, fun _ => true⟩).2.2.2
      "box".toList).2.2 (by decide)⟩

/-! ## `listPuttySessions` -/

/-- First match of the unanchored regex `/Sessions\\(.+)$/`: the earliest
occurrence of the literal `Sessions\` whose remainder is non-empty and is
matched by `.+` through to the end of the line. -/
def matchSessionsCapture : JStr → Option JStr
  | [] => none
  | l@(_ :: rest) =>
    if ("Sessions\\".toList).isPrefixOf l then
      if l.drop 9 ≠ [] ∧ (l.drop 9).all dotMatches then some (l.drop 9)
      else matchSessionsCapture rest
    else matchSessionsCapture rest

/-- `listPuttySessions` applied to the outcome of `reg query` over the
sessions root (`none`, the query error, yields the empty list). `cmp` stands
for `(a, b) => a.name.localeCompare(b.name)`; `localeCompare` is
locale-dependent and supplied abstractly, and `Array.prototype.sort` is
modelled as a stable sort agreeing with the comparator (the behaviour
ECMAScript guarantees for a consistent comparator). -/
def listPuttySessions (cmp : JStr → JStr → Int) (queryResult : Option JStr) :
    List PuttySession :=
  match queryResult with
  | none => []
  | some stdout =>
    let lines := (splitLinesCR stdout).map (fun l => jsTrim l)
    let sessions := lines.filterMap (fun l =>
      if ("HKEY_".toList).isPrefixOf l then
        (matchSessionsCapture l).map (fun id => ⟨id, decodeSessionKey id⟩)
      else none)
    List.insertionSort (fun a b => cmp a.name b.name ≤ 0) sessions

def sessionsRootCanon : JStr :=
  "HKEY_CURRENT_USER\\Software\\SimonTatham\\PuTTY\\Sessions".toList

/-- `reg query` stdout for the sessions root: the root line, then one line
per child key as a full canonical path. -/
def renderRootQuery (childKeys : List JStr) : JStr :=
  joinLines (sessionsRootCanon :: childKeys.map (fun k => sessionsRootCanon ++ '\\' :: k))

example : matchSessionsCapture sessionsRootCanon = none := by decide
example : matchSessionsCapture (sessionsRootCanon ++ '\\' :: "a b".toList)
    = some "a b".toList := by decide

theorem matchSessionsCapture_child (k : JStr) (h1 : ¬ k = [])
    (h2 : k.all dotMatches = true) :
    matchSessionsCapture (sessionsRootCanon ++ '\\' :: k) = some k := by
  simp +decide [matchSessionsCapture, sessionsRootCanon, List.isPrefixOf, h1, h2]

theorem hkey_isPrefix_root (X : JStr) :
    ("HKEY_".toList).isPrefixOf (sessionsRootCanon ++ X) = true := by
  simp +decide [sessionsRootCanon, List.isPrefixOf]

theorem listPuttySessions_render_spec (cmp : JStr → JStr → Int) (ks : List JStr)
    (htot : ∀ a b, cmp a b ≤ 0 ∨ cmp b a ≤ 0)
    (htrans : ∀ a b c, cmp a b ≤ 0 → cmp b c ≤ 0 → cmp a c ≤ 0)
    (hclean : ∀ k ∈ ks, ¬ k = [] ∧ k.all dotMatches = true ∧
      (∀ c, k.getLast? = some c → jsWhitespace c = false)) :
    (listPuttySessions cmp (some (renderRootQuery ks))).Perm
        (ks.map (fun k => ⟨k, decodeSessionKey k⟩)) ∧
    List.Sorted (fun a b => cmp a.name b.name ≤ 0)
        (listPuttySessions cmp (some (renderRootQuery ks))) ∧
    listPuttySessions cmp none = [] := by
  haveI hinstT : IsTotal PuttySession (fun a b => cmp a.name b.name ≤ 0) :=
    ⟨fun a b => htot a.name b.name⟩
  haveI hinstTr : IsTrans PuttySession (fun a b => cmp a.name b.name ≤ 0) :=
    ⟨fun a b c => htrans a.name b.name c.name⟩
  have hlines : ∀ l ∈ sessionsRootCanon ::
      ks.map (fun k => sessionsRootCanon ++ '\\' :: k), ∀ c ∈ l, c ≠ '\r' ∧ c ≠ '\n' := by
    intro l hl
    simp only [List.mem_cons, List.mem_map] at hl
    rcases hl with rfl | ⟨k, hk, rfl⟩
    · decide
    · intro c hc
      simp only [List.mem_append, List.mem_cons] at hc
      rcases hc with hc | hc | hc
      · revert c
        decide
      · subst hc
        exact ⟨by decide, by decide⟩
      · exact dotMatches_ne_crlf (List.all_eq_true.mp (hclean k hk).2.1 c hc)
  have htrimChild : ∀ k ∈ ks,
      jsTrim (sessionsRootCanon ++ '\\' :: k) = sessionsRootCanon ++ '\\' :: k := by
    intro k hk
    obtain ⟨hk1, hk2, hk3⟩ := hclean k hk
    apply jsTrim_eq_self
    · rw [show sessionsRootCanon ++ '\\' :: k =
        'H' :: ("KEY_CURRENT_USER\\Software\\SimonTatham\\PuTTY\\Sessions".toList ++
          '\\' :: k) from rfl]
      exact head_cond_of_cons (by decide)
    · intro c hc
      rw [show sessionsRootCanon ++ '\\' :: k = (sessionsRootCanon ++ ['\\']) ++ k from
        by simp] at hc
      rw [List.getLast?_append_of_ne_nil _ hk1] at hc
      exact hk3 c hc
  have hfm : (sessionsRootCanon :: ks.map (fun k => sessionsRootCanon ++ '\\' :: k)).filterMap
      (fun l =>
        if ("HKEY_".toList).isPrefixOf l then
          (matchSessionsCapture l).map (fun id => (⟨id, decodeSessionKey id⟩ : PuttySession))
        else none) =
      ks.map (fun k => ⟨k, decodeSessionKey k⟩) := by
    rw [List.filterMap_cons]
    rw [show (if ("HKEY_".toList).isPrefixOf sessionsRootCanon then
        (matchSessionsCapture sessionsRootCanon).map
          (fun id => (⟨id, decodeSessionKey id⟩ : PuttySession))
      else none) = none from by decide]
    rw [List.filterMap_map]
    rw [List.filterMap_congr (g := fun k => some (⟨k, decodeSessionKey k⟩ : PuttySession))
      (by
        intro k hk
        simp only [Function.comp_apply]
        rw [if_pos (by exact hkey_isPrefix_root _)]
        rw [matchSessionsCapture_child k (hclean k hk).1 (hclean k hk).2.1]
        rfl)]
    exact List.filterMap_eq_map _ ▸ rfl
  simp only [listPuttySessions, renderRootQuery]
  rw [splitLinesCR_joinLines _ (by simp) hlines]
  rw [List.map_cons, List.map_map]
  rw [show jsTrim sessionsRootCanon = sessionsRootCanon from by decide]
  rw [List.map_congr_left (fun k hk => by
    simp only [Function.comp_apply]
    exact htrimChild k hk)]
  rw [hfm]
  exact ⟨List.perm_insertionSort _ _, List.sorted_insertionSort _ _, trivial⟩

/-- C5: over any set of child keys under the sessions root (non-empty names
without line terminators or trailing whitespace, as registry key names are),
`listPuttySessions` returns exactly one `{id, name}` entry per child key with
`name` the decoded key segment, sorted ascending by decoded name according to
the locale comparator (modelled abstractly; any consistent comparator), and
returns the empty list when the query fails. -/
theorem C5_list_sessions (cmp : JStr → JStr → Int) (ks : List JStr)
    (htot : ∀ a b, cmp a b ≤ 0 ∨ cmp b a ≤ 0)
    (htrans : ∀ a b c, cmp a b ≤ 0 → cmp b c ≤ 0 → cmp a c ≤ 0)
    (hclean : ∀ k ∈ ks, ¬ k = [] ∧ k.all dotMatches = true ∧
      (∀ c, k.getLast? = some c → jsWhitespace c = false)) :
    (listPuttySessions cmp (some (renderRootQuery ks))).Perm
        (ks.map (fun k => ⟨k, decodeSessionKey k⟩)) ∧
    List.Sorted (fun a b => cmp a.name b.name ≤ 0)
        (listPuttySessions cmp (some (renderRootQuery ks))) ∧
    listPuttySessions cmp none = [] :=
  listPuttySessions_render_spec cmp ks htot htrans hclean

theorem C5_list_sessions_witness :
    (listPuttySessions (fun a b => (a.length : Int) - b.length)
        (some (renderRootQuery ["b".toList, "a%20c".toList]))).Perm
        (["b".toList, "a%20c".toList].map (fun k => ⟨k, decodeSessionKey k⟩)) ∧
    List.Sorted (fun a b : PuttySession =>
        (fun x y : JStr => (x.length : Int) - y.length) a.name b.name ≤ 0)
        (listPuttySessions (fun a b => (a.length : Int) - b.length)
          (some (renderRootQuery ["b".toList, "a%20c".toList]))) ∧
    listPuttySessions (fun a b => (a.length : Int) - b.length) none = [] :=
  C5_list_sessions (fun a b => (a.length : Int) - b.length)
    ["b".toList, "a%20c".toList]
    (fun a b => by dsimp only; omega) (fun a b c => by dsimp only; omega)
    (by
      intro k hk
      simp only [List.mem_cons, List.not_mem_nil, or_false] at hk
      rcases hk with rfl | rfl
      · exact ⟨by decide, by decide,
          last_cond_of_eq (l := "b".toList) (x := 'b') (by decide) (by decide)⟩
      · exact ⟨by decide, by decide,
          last_cond_of_eq (l := "a%20c".toList) (x := 'c') (by decide) (by decide)⟩)

/-- The name segments of the registry keys lying directly under the sessions
root: what `reg query` over the root would print one line for. -/
def childKeys (r : Registry) : List JStr :=
  r.filterMap (fun kk =>
    if (sessionsRoot ++ ['\\']).isPrefixOf kk.path then
      some (kk.path.drop (sessionsRoot.length + 1))
    else none)

theorem lookupKey_filter_ne (r : Registry) (key : JStr) :
    lookupKey (r.filter (fun k => ! (k.path == key))) key = none := by
  unfold lookupKey
  rw [List.find?_eq_none]
  intro x hx
  have h2 := (List.mem_filter.mp hx).2
  simpa using h2

theorem listPuttySessions_name_absent (cmp : JStr → JStr → Int)
    (ks : List JStr) (name : JStr)
    (htot : ∀ a b, cmp a b ≤ 0 ∨ cmp b a ≤ 0)
    (htrans : ∀ a b c, cmp a b ≤ 0 → cmp b c ≤ 0 → cmp a c ≤ 0)
    (hks : ∀ k ∈ ks, ¬ k = [] ∧ k.all dotMatches = true ∧
      (∀ c, k.getLast? = some c → jsWhitespace c = false) ∧
      ¬ decodeSessionKey k = name) :
    ∀ e ∈ listPuttySessions cmp (some (renderRootQuery ks)), ¬ e.name = name := by
  intro e he
  have hspec := listPuttySessions_render_spec cmp ks htot htrans
    (fun k hk => ⟨(hks k hk).1, (hks k hk).2.1, (hks k hk).2.2.1⟩)
  have hmem : e ∈ ks.map (fun k => PuttySession.mk k (decodeSessionKey k)) :=
    hspec.1.mem_iff.mp he
  obtain ⟨k, hk, rfl⟩ := List.mem_map.mp hmem
  exact (hks k hk).2.2.2

theorem applyCmd_deleteKey_lookup (key : JStr) (r r2 : Registry)
    (h : applyCmd (.deleteKey key) r = some r2) : lookupKey r2 key = none := by
  cases hlk : lookupKey r key with
  | none => exact Option.noConfusion (by simp only [applyCmd, hlk] at h; exact h)
  | some k =>
    simp only [applyCmd, hlk, Option.some.injEq] at h
    rw [← h]
    exact lookupKey_filter_ne r key

/-- C7 counterexample: in a registry holding both the key `...\Sessions\a` and
the alias key `...\Sessions\%61` (whose segment also decodes to `a`),
`deleteSession` of the session named `a` reports success, yet a subsequent
`listPuttySessions` over the remaining child keys still returns an entry whose
name is `a`: the deleted name is not absent from the next `list()` result. -/
theorem C7_counterexample :
    (deleteSession ⟨"p".toList, true, fun _ => true⟩ "a".toList
        [⟨sessionKeyPath "a".toList, []⟩,
         ⟨sessionsRoot ++ '\\' :: "%61".toList, []⟩]
        [⟨"a".toList, "a".toList⟩]).2.2 = [Event.toast false "Deleted".toList] ∧
    ∃ e ∈ listPuttySessions (fun _ _ => 0)
        (some (renderRootQuery (childKeys
          (deleteSession ⟨"p".toList, true, fun _ => true⟩ "a".toList
            [⟨sessionKeyPath "a".toList, []⟩,
             ⟨sessionsRoot ++ '\\' :: "%61".toList, []⟩]
            [⟨"a".toList, "a".toList⟩]).1))),
      e.name = "a".toList := by
  constructor
  · decide
  · rw [show childKeys ((deleteSession ⟨"p".toList, true, fun _ => true⟩ "a".toList
        [⟨sessionKeyPath "a".toList, []⟩,
         ⟨sessionsRoot ++ '\\' :: "%61".toList, []⟩]
        [⟨"a".toList, "a".toList⟩]).1) = ["%61".toList] from by decide]
    have hdec : decodeSessionKey "%61".toList = "a".toList := by
      simp [decodeSessionKey, decodeURIComponentList, decodeOneEscape, takePctByte,
        takeContByte, hexPairVal, hexDigitVal]
    have hspec := listPuttySessions_render_spec (fun _ _ => 0) ["%61".toList]
      (fun a b => Or.inl (by norm_num))
      (fun a b c h1 h2 => h1)
      (by
        intro k hk
        simp only [List.mem_cons, List.not_mem_nil, or_false] at hk
        subst hk
        exact ⟨by decide, by decide,
          last_cond_of_eq (l := "%61".toList) (x := '1') (by decide) (by decide)⟩)
    have h1 := hspec.1
    simp only [List.map_cons, List.map_nil, hdec] at h1
    rw [List.perm_singleton.mp h1]
    exact ⟨⟨"%61".toList, "a".toList⟩, by simp, rfl⟩

/-- C7 (amended): when `deleteSession` reports success (the success toast),
every snapshot entry whose name equals the deleted name is removed from the
returned snapshot immediately, and the session's registry key is gone, so a
subsequent `list()` over the remaining child keys contains no entry with that
name PROVIDED no remaining child key decodes to it (an alias key whose segment
decodes to the same name would still be listed under that name); when the
registry delete fails, the snapshot is left unchanged. -/
theorem C7_delete_session (env : Env) (name : JStr) (r : Registry)
    (snapshot : List PuttySession) :
    ((deleteSession env name r snapshot).2.2 =
        [Event.toast false "Deleted".toList] →
      (deleteSession env name r snapshot).2.1 =
        snapshot.filter (fun s => ¬ (s.name = name)) ∧
      lookupKey (deleteSession env name r snapshot).1 (sessionKeyPath name) = none ∧
      ∀ cmp : JStr → JStr → Int,
        (∀ a b, cmp a b ≤ 0 ∨ cmp b a ≤ 0) →
        (∀ a b c, cmp a b ≤ 0 → cmp b c ≤ 0 → cmp a c ≤ 0) →
        (∀ k ∈ childKeys (deleteSession env name r snapshot).1,
          ¬ k = [] ∧ k.all dotMatches = true ∧
          (∀ c, k.getLast? = some c → jsWhitespace c = false) ∧
          ¬ decodeSessionKey k = name) →
        ∀ e ∈ listPuttySessions cmp
            (some (renderRootQuery (childKeys (deleteSession env name r snapshot).1))),
          ¬ e.name = name) ∧
    ((deleteSession env name r snapshot).2.2 =
        [Event.toast true "Failed to delete session".toList] →
      (deleteSession env name r snapshot).2.1 = snapshot ∧
      (deleteSession env name r snapshot).1 = r) := by
  constructor
  · intro hs
    have hok : env.regOk 0 = true := by
      by_contra hok
      unfold deleteSession at hs
      rw [if_neg hok] at hs
      simp at hs
    have hdel2 : ∃ r2, applyCmd (.deleteKey (sessionKeyPath name)) r = some r2 := by
      unfold deleteSession at hs
      rw [if_pos hok] at hs
      cases h : applyCmd (.deleteKey (sessionKeyPath name)) r with
      | none => rw [h] at hs; simp at hs
      | some r2 => exact ⟨r2, rfl⟩
    obtain ⟨r2, hdel⟩ := hdel2
    refine ⟨?_, ?_, ?_⟩
    · unfold deleteSession
      rw [if_pos hok]
      simp only [hdel]
    · unfold deleteSession
      rw [if_pos hok]
      simp only [hdel]
      exact applyCmd_deleteKey_lookup (sessionKeyPath name) r r2 hdel
    · intro cmp htot htrans hks
      exact listPuttySessions_name_absent cmp _ name htot htrans hks
  · intro hf
    by_cases hok : env.regOk 0
    · cases hdel : applyCmd (.deleteKey (sessionKeyPath name)) r with
      | none =>
        constructor
        · unfold deleteSession
          rw [if_pos hok]
          simp only [hdel]
        · unfold deleteSession
          rw [if_pos hok]
          simp only [hdel]
      | some r2 =>
        exfalso
        unfold deleteSession at hf
        rw [if_pos hok] at hf
        rw [hdel] at hf
        simp at hf
    · constructor
      · unfold deleteSession
        rw [if_neg hok]
      · unfold deleteSession
        rw [if_neg hok]

theorem C7_delete_session_witness :
    (deleteSession ⟨"p".toList, true, fun _ => true⟩ "a".toList
        [⟨sessionKeyPath "a".toList, []⟩] [⟨"a".toList, "a".toList⟩]).2.1 =
      ([⟨"a".toList, "a".toList⟩] : List PuttySession).filter
        (fun s => ¬ (s.name = "a".toList)) ∧
    lookupKey (deleteSession ⟨"p".toList, true, fun _ => true⟩ "a".toList
        [⟨sessionKeyPath "a".toList, []⟩] [⟨"a".toList, "a".toList⟩]).1
      (sessionKeyPath "a".toList) = none ∧
    (∀ e ∈ listPuttySessions (fun _ _ => 0)
        (some (renderRootQuery (childKeys
          (deleteSession ⟨"p".toList, true, fun _ => true⟩ "a".toList
            [⟨sessionKeyPath "a".toList, []⟩] [⟨"a".toList, "a".toList⟩]).1))),
      ¬ e.name = "a".toList) := by
  have h := (C7_delete_session ⟨"p".toList, true, fun _ => true⟩ "a".toList
      [⟨sessionKeyPath "a".toList, []⟩] [⟨"a".toList, "a".toList⟩]).1 (by decide)
  refine ⟨h.1, h.2.1, ?_⟩
  refine h.2.2 (fun _ _ => 0) (fun a b => Or.inl (by norm_num))
    (fun a b c h1 h2 => h1) ?_
  intro k hk
  rw [show childKeys ((deleteSession ⟨"p".toList, true, fun _ => true⟩ "a".toList
      [⟨sessionKeyPath "a".toList, []⟩] [⟨"a".toList, "a".toList⟩]).1) = []
    from by decide] at hk
  simp at hk
